import Mathlib

/-!
# Verification of the potpot storage engine core

A shallow embedding of the potpot database engine (paged file storage,
clock-replacement buffer pool, slotted page, single-page hash table, CRC
framing) together with proofs about the embedded definitions.

Conventions of the embedding:

* Machine integers (`u8`, `u16`, `u32`, `u64`) are modelled as `Nat`; where the
  source performs little-endian byte (de)serialisation the byte decomposition
  `v / 256 ^ k % 256` is explicit.
* A page buffer (`aligned::Buffer`, 16384 bytes, from `src/aligned.rs` with
  `PAGESIZE = 16384` from `src/lib.rs`) is modelled as a byte store
  `Mem := Nat → Nat` addressed by offset; slice writes become pointwise
  function updates in source order.
* Fallible operations return `Except Unit _` (the source's `io::Result` /
  `TmpError`); `&mut self` methods additionally return the updated state.
* Device-level I/O failure (an OS error from a read/write/sync on the
  underlying file) is modelled by a fault schedule carried in the buffer-pool
  state: before each storage call the next flag is consumed, and a `true` flag
  makes that call fail with no effect on the file model.
-/

namespace Potpot

/-! ## Byte store -/

/-- `PAGESIZE` from `src/lib.rs` (final revision): 16384. -/
def PAGESIZE : Nat := 16384

/-- A byte store addressed by offset; models the contents of an
`aligned::Buffer` (bytes beyond `PAGESIZE` are never read by the code). -/
abbrev Mem := Nat → Nat

/-- The all-zero buffer (`aligned::Buffer::new()` zero-fills). -/
def zeroMem : Mem := fun _ => 0

/-- Pointwise update of a byte store. -/
def upd (m : Mem) (i v : Nat) : Mem := fun j => if j = i then v else m j

/-- Write a list of bytes starting at `off` (models `copy_from_slice` onto a
subrange). -/
def writeList : Mem → Nat → List Nat → Mem
  | m, _, [] => m
  | m, off, b :: bs => writeList (upd m off b) (off + 1) bs

/-- Read `n` bytes starting at `off`. -/
def readList (m : Mem) (off n : Nat) : List Nat :=
  (List.range n).map (fun j => m (off + j))

/-- Little-endian byte decomposition of a `u16` (`u16::to_le_bytes`). -/
def bytesOfU16 (v : Nat) : List Nat := [v % 256, v / 256 % 256]

/-- Little-endian byte decomposition of a `u32` (`u32::to_le_bytes`). -/
def bytesOfU32 (v : Nat) : List Nat :=
  [v % 256, v / 256 % 256, v / 65536 % 256, v / 16777216 % 256]

/-- Little-endian byte decomposition of a `u64` (`u64::to_le_bytes`). -/
def bytesOfU64 (v : Nat) : List Nat :=
  [v % 256, v / 256 % 256, v / 65536 % 256, v / 16777216 % 256,
   v / 4294967296 % 256, v / 1099511627776 % 256,
   v / 281474976710656 % 256, v / 72057594037927936 % 256]

/-- Write a `u16` little-endian at `off`. -/
def writeU16 (m : Mem) (off v : Nat) : Mem := writeList m off (bytesOfU16 v)

/-- Write a `u32` little-endian at `off`. -/
def writeU32 (m : Mem) (off v : Nat) : Mem := writeList m off (bytesOfU32 v)

/-- Write a `u64` little-endian at `off`. -/
def writeU64 (m : Mem) (off v : Nat) : Mem := writeList m off (bytesOfU64 v)

/-- Read a `u16` little-endian at `off` (`u16::from_le_bytes`). -/
def readU16 (m : Mem) (off : Nat) : Nat := m off + 256 * m (off + 1)

/-- Read a `u32` little-endian at `off` (`u32::from_le_bytes`). -/
def readU32 (m : Mem) (off : Nat) : Nat :=
  m off + 256 * m (off + 1) + 65536 * m (off + 2) + 16777216 * m (off + 3)

/-- Read a `u64` little-endian at `off` (`u64::from_le_bytes`). -/
def readU64 (m : Mem) (off : Nat) : Nat :=
  m off + 256 * m (off + 1) + 65536 * m (off + 2) + 16777216 * m (off + 3) +
  4294967296 * m (off + 4) + 1099511627776 * m (off + 5) +
  281474976710656 * m (off + 6) + 72057594037927936 * m (off + 7)

/-! ## Slotted page (`src/page.rs`)

`SlottedPage` wraps one page buffer.  Header: `end_of_free_space : u16` at
`[0..2)`, `record_count : u16` at `[2..4)`, then one `(offset : u16,
size : u16)` pair per record. -/

structure SlottedPage where
  data : Mem

namespace SlottedPage

/-- `SlottedPage::end_of_free_space`. -/
def end_of_free_space (pg : SlottedPage) : Nat := readU16 pg.data 0

/-- `SlottedPage::record_count`. -/
def record_count (pg : SlottedPage) : Nat := readU16 pg.data 2

/-- `SlottedPage::header_size`: `2 + 2 + 4 * record_count`. -/
def header_size (pg : SlottedPage) : Nat := 2 + 2 + 4 * pg.record_count

/-- `SlottedPage::available_bytes`: `end_of_free_space - header_size`
(u16 subtraction; valid pages keep `header_size ≤ end_of_free_space`). -/
def available_bytes (pg : SlottedPage) : Nat :=
  pg.end_of_free_space - pg.header_size

/-- `SlottedPage::free_space` (public wrapper of `available_bytes`). -/
def free_space (pg : SlottedPage) : Nat := pg.available_bytes

/-- `SlottedPage::record_header_offset`: `4 + 4 * recno`. -/
def record_header_offset (recno : Nat) : Nat := 4 + 4 * recno

/-- `SlottedPage::record_header`: the `(offset, size)` pair of record
`recno`, or `none` when `recno ≥ record_count`. -/
def record_header (pg : SlottedPage) (recno : Nat) : Option (Nat × Nat) :=
  if recno < pg.record_count then
    some (readU16 pg.data (record_header_offset recno),
          readU16 pg.data (record_header_offset recno + 2))
  else
    none

/-- `SlottedPage::get_record`: the payload bytes `data[offset..offset+size]`
of record `recno`, or `none`. -/
def get_record (pg : SlottedPage) (recno : Nat) : Option (List Nat) :=
  (pg.record_header recno).map (fun p => readList pg.data p.1 p.2)

/-- `SlottedPage::write_end_of_free_space`. -/
def write_end_of_free_space (pg : SlottedPage) (v : Nat) : SlottedPage :=
  ⟨writeU16 pg.data 0 v⟩

/-- `SlottedPage::write_record_count`. -/
def write_record_count (pg : SlottedPage) (v : Nat) : SlottedPage :=
  ⟨writeU16 pg.data 2 v⟩

/-- `SlottedPage::write_record_header`: writes `offset` then `size` at the
directory slot of `recno`. -/
def write_record_header (pg : SlottedPage) (recno offset size : Nat) : SlottedPage :=
  ⟨writeU16 (writeU16 pg.data (record_header_offset recno) offset)
      (record_header_offset recno + 2) size⟩

/-- `SlottedPage::write_record_at`: copies the record bytes at `offset`. -/
def write_record_at (pg : SlottedPage) (offset : Nat) (record : List Nat) : SlottedPage :=
  ⟨writeList pg.data offset record⟩

/-- `SlottedPage::default()`: zero buffer, then `end_of_free_space := PAGESIZE`. -/
def default : SlottedPage :=
  write_end_of_free_space ⟨zeroMem⟩ PAGESIZE

/-- `SlottedPage::insert_record`.  Returns the (possibly updated) page plus
the result, mirroring `&mut self` with `Result<RecordId, TmpError>`:

* `record.len().try_into::<u16>()` fails for `record.length > 65535`;
* the capacity check `reclen + 4 > available_bytes` fails with `TmpError`;
* otherwise the writes happen in source order (record count, directory
  entry, end-of-free-space, payload) and the old record count is returned. -/
def insert_record (pg : SlottedPage) (record : List Nat) : SlottedPage × Except Unit Nat :=
  let recno := pg.record_count
  if 65535 < record.length then (pg, .error ())
  else
    let reclen := record.length
    if pg.available_bytes < reclen + 4 then (pg, .error ())
    else
      let pg1 := pg.write_record_count (recno + 1)
      let offset := pg1.end_of_free_space - reclen
      let pg2 := pg1.write_record_header recno offset reclen
      let pg3 := pg2.write_end_of_free_space offset
      let pg4 := pg3.write_record_at offset record
      (pg4, .ok recno)

end SlottedPage

/-- Run a list of `insert_record` calls from a starting page, requiring every
insert to succeed. -/
def insertAll : SlottedPage → List (List Nat) → Option SlottedPage
  | pg, [] => some pg
  | pg, r :: rs =>
    match pg.insert_record r with
    | (pg1, .ok _) => insertAll pg1 rs
    | (_, .error _) => none

/-- Total payload length of a record list. -/
def sumLens (rs : List (List Nat)) : Nat := (rs.map List.length).sum

/-- Invariant of a slotted page holding exactly the records `rs` (in insertion
order): header fields, directory entries and payload bytes all match the
record list, and the accounting bound holds. -/
def Good (pg : SlottedPage) (rs : List (List Nat)) : Prop :=
  pg.record_count = rs.length ∧
  pg.end_of_free_space = PAGESIZE - sumLens rs ∧
  sumLens rs + 4 + 4 * rs.length ≤ PAGESIZE ∧
  ∀ i, (h : i < rs.length) →
    pg.record_header i =
      some (PAGESIZE - sumLens (rs.take (i + 1)), (rs.get ⟨i, h⟩).length) ∧
    readList pg.data (PAGESIZE - sumLens (rs.take (i + 1)))
        (rs.get ⟨i, h⟩).length = rs.get ⟨i, h⟩

/-- The insert/get contract of a slotted page holding records `rs`: an insert
fails (leaving the page as is) exactly when `reclen + 4` exceeds
`available_bytes`, and otherwise decrements `end_of_free_space` by `reclen`,
writes the payload there, appends the `(new_end, reclen)` directory pair,
increments `record_count` and returns the old record count; `get_record`
returns the stored bytes below `record_count` and `none` at or above it. -/
def C5Concl (rs : List (List Nat)) (pg : SlottedPage) : Prop :=
  (∀ r : List Nat,
    (pg.available_bytes < r.length + 4 → pg.insert_record r = (pg, .error ())) ∧
    (r.length + 4 ≤ pg.available_bytes →
      (pg.insert_record r).2 = .ok pg.record_count ∧
      (pg.insert_record r).1.end_of_free_space = pg.end_of_free_space - r.length ∧
      (pg.insert_record r).1.record_count = pg.record_count + 1 ∧
      (pg.insert_record r).1.record_header pg.record_count =
        some (pg.end_of_free_space - r.length, r.length) ∧
      readList (pg.insert_record r).1.data (pg.end_of_free_space - r.length) r.length = r)) ∧
  (∀ rid,
    (rid < pg.record_count → ∃ h : rid < rs.length, pg.get_record rid = some (rs.get ⟨rid, h⟩)) ∧
    (pg.record_count ≤ rid → pg.get_record rid = none))

/-! ## Single-page hash table page (`src/hashtable.rs`, `mod page`)

The typed `Page<V>` wraps one page buffer; field accessors address the buffer
directly, exactly as in the source (`set_page_type` casts the tag to `u32`
and writes `buffer[4..8]`; `value_size` and `hash_algorithm` both address
`buffer[8..10]`). -/

namespace HashPage

/-- `PageType::SinglePageHashTable` (`src/lib.rs`). -/
def pageTypeTag : Nat := 0x2000

/-- `Page::set_page_type`: writes `page_type as u32` at `buffer[4..8]`. -/
def set_page_type (m : Mem) : Mem := writeU32 m 4 pageTypeTag

/-- `Page::value_size`: reads `buffer[8..10]` as `u16`. -/
def value_size (m : Mem) : Nat := readU16 m 8

/-- `Page::set_value_size`: writes the size as `u16` at `buffer[8..10]`
(the source asserts `size ≤ 4096` first). -/
def set_value_size (m : Mem) (size : Nat) : Mem := writeU16 m 8 size

/-- `Page::hash_algorithm` raw tag: reads `buffer[8..10]` as `u16`. -/
def hash_algorithm (m : Mem) : Nat := readU16 m 8

/-- `Page::set_hash_algorithm`: writes the algorithm tag as `u16` at
`buffer[8..10]` (`HashAlgorithm::XxHash = 0`). -/
def set_hash_algorithm (m : Mem) (algo : Nat) : Mem := writeU16 m 8 algo

/-- `Page::hash_seed`: reads `buffer[0x10..0x18]` as `u64`. -/
def hash_seed (m : Mem) : Nat := readU64 m 0x10

/-- `Page::set_hash_seed`: writes the seed as `u64` at `buffer[0x10..0x18]`. -/
def set_hash_seed (m : Mem) (seed : Nat) : Mem := writeU64 m 0x10 seed

/-- `Page::<V>::new(hash_seed)`: zero buffer, then in source order
`set_page_type`, `set_value_size(size_of::<V>())`,
`set_hash_algorithm(XxHash)`, `set_hash_seed(hash_seed)`.
`vsize` stands for `size_of::<V>()`. -/
def new (vsize seed : Nat) : Mem :=
  set_hash_seed (set_hash_algorithm (set_value_size (set_page_type zeroMem) vsize) 0) seed

end HashPage

/-! ## CRC-32/IEEE (`crc` crate `crc32::checksum_ieee`, used by
`src/aligned.rs` and `src/hashtable.rs`)

The external `crc` crate is modelled by the standard bitwise reflected
CRC-32/IEEE algorithm: state initialised to `0xFFFFFFFF`; per input byte the
byte is xor-ed into the low bits and eight shift-and-conditionally-xor steps
with the reflected polynomial `0xEDB88320` follow; the final state is
complemented. -/

/-- Reflected CRC-32/IEEE polynomial. -/
def CRCPOLY : Nat := 0xEDB88320

/-- One bit step: shift right, xor the polynomial iff the dropped bit was 1. -/
def crcBit (c : Nat) : Nat := (c / 2) ^^^ (if c % 2 = 1 then CRCPOLY else 0)

/-- One byte step: xor the byte into the state, then eight bit steps. -/
def crcByte (c b : Nat) : Nat := crcBit^[8] (c ^^^ b)

/-- `crc32::checksum_ieee` over a byte list. -/
def crc32 (l : List Nat) : Nat := (l.foldl crcByte 0xFFFFFFFF) ^^^ 0xFFFFFFFF

/-- The page bytes `buffer[4..PAGESIZE)` a codec checksums. -/
def pageBytes (m : Mem) : List Nat :=
  (List.range (PAGESIZE - 4)).map (fun j => m (4 + j))

/-- `aligned::check_crc`: the checksum of `buffer[4..]` equals the
little-endian `u32` at `buffer[..4]`. -/
def check_crc (m : Mem) : Bool := crc32 (pageBytes m) == readU32 m 0

/-- The serialisation step of `Page::into_aligned` (`src/hashtable.rs`):
compute the checksum of `buffer[4..]` and store it little-endian at
`buffer[0..4]`. -/
def into_aligned (m : Mem) : Mem := writeU32 m 0 (crc32 (pageBytes m))

/-! ## Clock replacement manager (`src/bufferpool.rs`) -/

/-- `ClockManager<u64>`: hand index, reference bits, resident keys. -/
structure ClockManager where
  idx : Nat
  clock : List Bool
  entries : List (Option Nat)
deriving DecidableEq

namespace ClockManager

/-- `ClockManager::new(size)`. -/
def new (size : Nat) : ClockManager :=
  ⟨0, List.replicate size false, List.replicate size none⟩

/-- `CacheManager::update`: set the reference bit of the slot. -/
def update (cm : ClockManager) (i : Nat) : ClockManager :=
  { cm with clock := cm.clock.set i true }

/-- The scan loop inside `ClockManager::sweep`: starting at offset `o` from
`start`, examine at most `fuel` slots with wraparound; clear each set bit
and stop at the first clear bit, returning the updated bits and the found
position (`none` when every examined bit was set). -/
def sweepFind : List Bool → Nat → Nat → Nat → Nat → List Bool × Option Nat
  | clock, _, _, _, 0 => (clock, none)
  | clock, size, start, o, fuel + 1 =>
    let pos := (start + o) % size
    if clock.getD pos false then sweepFind (clock.set pos false) size start (o + 1) fuel
    else (clock, some pos)

/-- `CacheManager::sweep`: scan one full revolution from the hand; select the
first slot with a clear bit (the hand's position if none); set the selected
bit, move the hand there, install the new key, and return the selected index
with the previous resident. -/
def sweep (cm : ClockManager) (entry : Nat) : ClockManager × Nat × Option Nat :=
  let size := cm.clock.length
  let scan := sweepFind cm.clock size cm.idx 0 size
  let idx := scan.2.getD cm.idx
  let prev := cm.entries.getD idx none
  (⟨idx, scan.1.set idx true, cm.entries.set idx (some entry)⟩, idx, prev)

end ClockManager

/-- The first offset `o < size` (scanning forward from `start` with
wraparound) whose reference bit is clear; `none` when a full pass finds no
clear bit.  This is the spec-side description of the clock scan. -/
def firstFree (clock : List Bool) (size start : Nat) : Option Nat :=
  (List.range size).find? (fun o => !clock.getD ((start + o) % size) false)

/-- How many reference bits one `sweep` clears: the offset of the first clear
bit, or the whole ring when every bit was set. -/
def clearedCount (clock : List Bool) (size start : Nat) : Nat :=
  match firstFree clock size start with
  | some o => o
  | none => size

/-- The scan count of the partial scan starting at offset `o` with `fuel`
slots left (generalisation of `clearedCount` used for the loop induction). -/
def scanCount (clock : List Bool) (size start o fuel : Nat) : Nat :=
  match (List.range fuel).find? (fun j => !clock.getD ((start + o + j) % size) false) with
  | some j => j
  | none => fuel

/-- The spec-side description of one `sweep` step on clock state `cm` with
new key `entry`: scanning forward from the hand with wraparound, each set
reference bit up to the selection is cleared, the first slot with a clear
bit is selected (the hand's position when a full pass finds none), the new
key is installed there with its bit set, the hand moves to the selected
slot, and the slot index plus the previous resident are returned.  All other
slots keep their bits and keys. -/
def SweepSpecAt (cm : ClockManager) (entry : Nat) : Prop :=
  let size := cm.clock.length
  let res := cm.sweep entry
  let sel := match firstFree cm.clock size cm.idx with
    | some o => (cm.idx + o) % size
    | none => cm.idx
  res.2.1 = sel ∧
  res.1.idx = sel ∧
  res.1.entries = cm.entries.set sel (some entry) ∧
  res.2.2 = cm.entries.getD sel none ∧
  res.1.clock.getD sel false = true ∧
  (∀ p, p < size → p ≠ sel →
    (∃ j, j < clearedCount cm.clock size cm.idx ∧ p = (cm.idx + j) % size) →
    res.1.clock.getD p false = false) ∧
  (∀ p, p < size → p ≠ sel →
    (∀ j, j < clearedCount cm.clock size cm.idx → p ≠ (cm.idx + j) % size) →
    res.1.clock.getD p false = cm.clock.getD p false)

/-- The clock scenario from the source's `clock_manager` test, as quoted by
the spec: on a fresh clock of size 4, `sweep 100 .. sweep 103` fill slots
0..3 with no evictions, `sweep 104` evicts key 100 from slot 0, and after
touching slots 1 and 2, `sweep 105` evicts key 103 from slot 3, leaving
residents `[104, 101, 102, 105]`. -/
def ClockScenario : Prop :=
  let c0 := ClockManager.new 4
  let r1 := c0.sweep 100
  let r2 := r1.1.sweep 101
  let r3 := r2.1.sweep 102
  let r4 := r3.1.sweep 103
  let r5 := r4.1.sweep 104
  let c6 := (r5.1.update 1).update 2
  let r6 := c6.sweep 105
  r1.2 = (0, none) ∧ r2.2 = (1, none) ∧ r3.2 = (2, none) ∧ r4.2 = (3, none) ∧
  r5.2 = (0, some 100) ∧ r6.2 = (3, some 103) ∧
  r6.1.entries = [some 104, some 101, some 102, some 105]

/-! ## Paged file, page-level view (`src/storage.rs` as used by the pool)

`BufferPool` exchanges whole aligned pages with `PagedFile`; at that
granularity the file is a sequence of pages (the file length stays a
multiple of the page size through page-granular writes).  A page payload is
a byte list. -/

/-- A page payload as exchanged with the pool. -/
abbrev Page := List Nat

/-- The file as a sequence of pages. -/
structure PagedFile where
  pages : List Page
deriving DecidableEq

namespace PagedFile

/-- `PagedFile::read_page`: the page at `pid`, or an I/O error (EOF) when the
file does not reach it. -/
def read_page (f : PagedFile) (pid : Nat) : Except Unit Page :=
  match f.pages.get? pid with
  | some pg => .ok pg
  | none => .error ()

/-- `PagedFile::append_page`: seek to end, write one page, return
`offset / page_size` (the old page count). -/
def append_page (f : PagedFile) (buf : Page) : PagedFile × Nat :=
  (⟨f.pages ++ [buf]⟩, f.pages.length)

/-- `PagedFile::write_page`: overwrite the page at `pid`; a write past the
end extends the file with zero pages first (sparse-file behaviour of a seek
past EOF followed by a write). -/
def write_page (f : PagedFile) (pid : Nat) (buf : Page) : PagedFile :=
  if pid < f.pages.length then ⟨f.pages.set pid buf⟩
  else ⟨f.pages ++ List.replicate (pid - f.pages.length) (List.replicate PAGESIZE 0) ++ [buf]⟩

end PagedFile

/-! ## Buffer pool (`src/bufferpool.rs`) -/

/-- Association-list lookup, mirroring `HashMap::get`. -/
def lookupA : List (Nat × Nat) → Nat → Option Nat
  | [], _ => none
  | (k, v) :: rest, k0 => if k0 = k then some v else lookupA rest k0

/-- Association-list removal, mirroring `HashMap::remove`. -/
def removeA (l : List (Nat × Nat)) (k : Nat) : List (Nat × Nat) :=
  l.filter (fun e => e.1 != k)

/-- Consume the next flag of a fault schedule (an empty schedule means no
device errors). -/
def popFault : List Bool → Bool × List Bool
  | [] => (false, [])
  | b :: rest => (b, rest)

/-- `BufferPool`: page table, clock manager, cached frames, owned paged
file, plus the fault schedule for the modelled device errors. -/
structure BufferPool where
  page_table : List (Nat × Nat)
  manager : ClockManager
  frames : List Page
  storage : PagedFile
  faults : List Bool
deriving DecidableEq

namespace BufferPool

/-- `BufferPool::new(storage, size)`: empty page table, fresh clock, `size`
zero frames. -/
def new (storage : PagedFile) (size : Nat) (faults : List Bool) : BufferPool :=
  ⟨[], ClockManager.new size, List.replicate size (List.replicate PAGESIZE 0), storage, faults⟩

/-- `BufferPool::add_to_buffer_pool`: on a hit, touch the clock bit and
refresh the frame; on a miss, sweep for a victim, drop the evicted page-table
entry, insert the new mapping, and fill the frame.  Returns the frame index. -/
def add_to_buffer_pool (bp : BufferPool) (pid : Nat) (data : Page) : BufferPool × Nat :=
  match lookupA bp.page_table pid with
  | some i =>
    ({ bp with manager := bp.manager.update i, frames := bp.frames.set i data }, i)
  | none =>
    let scan := bp.manager.sweep pid
    let pt :=
      match scan.2.2 with
      | some old => removeA bp.page_table old
      | none => bp.page_table
    ({ bp with
        manager := scan.1,
        page_table := (pid, scan.2.1) :: pt,
        frames := bp.frames.set scan.2.1 data }, scan.2.1)

/-- The miss path of `BufferPool::read_page`: read from storage (a device
fault or a read past EOF propagates with no pool-state change), then install
the fetched page. -/
def readMiss (bp : BufferPool) (pid : Nat) : BufferPool × Except Unit Page :=
  let f := popFault bp.faults
  let bp1 : BufferPool := { bp with faults := f.2 }
  if f.1 then (bp1, .error ())
  else
    match bp1.storage.read_page pid with
    | .error _ => (bp1, .error ())
    | .ok data => ((bp1.add_to_buffer_pool pid data).1, .ok data)

/-- `BufferPool::read_page`: on a hit (page-table entry with a valid frame
index) touch the clock bit and copy the frame out; otherwise fall through to
the miss path. -/
def read_page (bp : BufferPool) (pid : Nat) : BufferPool × Except Unit Page :=
  match lookupA bp.page_table pid with
  | some i =>
    if i < bp.frames.length then
      ({ bp with manager := bp.manager.update i }, .ok (bp.frames.getD i []))
    else
      bp.readMiss pid
  | none => bp.readMiss pid

/-- `BufferPool::append_page`: append through the paged file first; only on
success install the page into the pool and return the new page id. -/
def append_page (bp : BufferPool) (data : Page) : BufferPool × Except Unit Nat :=
  let f := popFault bp.faults
  let bp1 : BufferPool := { bp with faults := f.2 }
  if f.1 then (bp1, .error ())
  else
    let ap := bp1.storage.append_page data
    let bp2 : BufferPool := { bp1 with storage := ap.1 }
    ((bp2.add_to_buffer_pool ap.2 data).1, .ok ap.2)

/-- `BufferPool::update_page`: install the new data into the pool FIRST
(exactly as the source does), then write through the paged file. -/
def update_page (bp : BufferPool) (pid : Nat) (data : Page) : BufferPool × Except Unit Unit :=
  let bp1 := (bp.add_to_buffer_pool pid data).1
  let f := popFault bp1.faults
  let bp2 : BufferPool := { bp1 with faults := f.2 }
  if f.1 then (bp2, .error ())
  else ({ bp2 with storage := bp2.storage.write_page pid data }, .ok ())

end BufferPool

/-- One buffer-pool operation. -/
inductive PoolOp where
  | readP (pid : Nat)
  | appendP (d : Page)
  | updateP (pid : Nat) (d : Page)
deriving DecidableEq

/-- Run one operation, keeping the state. -/
def BufferPool.runOp (bp : BufferPool) : PoolOp → BufferPool
  | .readP pid => (bp.read_page pid).1
  | .appendP d => (bp.append_page d).1
  | .updateP pid d => (bp.update_page pid d).1

/-- Run a list of operations. -/
def BufferPool.runOps (bp : BufferPool) (ops : List PoolOp) : BufferPool :=
  ops.foldl BufferPool.runOp bp

/-- No `update_page` of page `p` occurs in the list. -/
def noUpdateTo (p : Nat) (ops : List PoolOp) : Prop :=
  ∀ d, PoolOp.updateP p d ∉ ops

/-- Well-formedness of a clock manager: rings of equal length, hand in
range. -/
def ClockManager.WF (cm : ClockManager) : Prop :=
  cm.entries.length = cm.clock.length ∧ cm.idx < cm.clock.length

/-- Clock residency: slot `i` holds key `k` exactly when the page table maps
`k` to `i`. -/
def Residency (bp : BufferPool) : Prop :=
  ∀ i k, bp.manager.entries.getD i none = some k ↔ lookupA bp.page_table k = some i

/-- Well-formedness of a buffer pool: well-formed positive-size clock, frame
count matching the clock size, and the residency invariant. -/
def BufferPool.WF (bp : BufferPool) : Prop :=
  bp.manager.WF ∧ bp.frames.length = bp.manager.clock.length ∧
  0 < bp.manager.clock.length ∧ Residency bp

/-- Page `p` holds payload `d` coherently: the file stores `d` at `p`, and
any frame caching `p` stores `d` as well. -/
def Coherent (bp : BufferPool) (p : Nat) (d : Page) : Prop :=
  bp.storage.pages.get? p = some d ∧
  ∀ i, lookupA bp.page_table p = some i → bp.frames.getD i [] = d

/-- What actually happens when the underlying paged-file I/O fails (the next
fault flag is set): `append_page` and `read_page` (miss path) report the
error with the pool's page table, clock, frames and file untouched, but
`update_page` has already installed the new data into the pool before the
failing write — its page table, clock and frames are those produced by
`add_to_buffer_pool`, while the file is unchanged. -/
def C4AmendedAt (bp : BufferPool) (pid : Nat) (d data : Page) : Prop :=
  ((bp.append_page data).2 = .error () ∧
    (bp.append_page data).1.page_table = bp.page_table ∧
    (bp.append_page data).1.frames = bp.frames ∧
    (bp.append_page data).1.manager = bp.manager ∧
    (bp.append_page data).1.storage = bp.storage) ∧
  (lookupA bp.page_table pid = none →
    ((bp.read_page pid).2 = .error () ∧
      (bp.read_page pid).1.page_table = bp.page_table ∧
      (bp.read_page pid).1.frames = bp.frames ∧
      (bp.read_page pid).1.manager = bp.manager ∧
      (bp.read_page pid).1.storage = bp.storage)) ∧
  ((bp.update_page pid d).2 = .error () ∧
    (bp.update_page pid d).1.page_table = (bp.add_to_buffer_pool pid d).1.page_table ∧
    (bp.update_page pid d).1.frames = (bp.add_to_buffer_pool pid d).1.frames ∧
    (bp.update_page pid d).1.manager = (bp.add_to_buffer_pool pid d).1.manager ∧
    (bp.update_page pid d).1.storage = bp.storage)

/-! ## Paged file, byte-level view (`src/storage.rs`) -/

namespace Storage

/-- `PagedFile` as in `src/storage.rs`: raw file contents plus the page
size fixed at open time. -/
structure PagedFile where
  contents : List Nat
  page_size : Nat
deriving DecidableEq

/-- `PagedFile::append_page`: seek to end (yielding the current length as
`offset`), write exactly `page_size` bytes from the buffer, `sync_data`, and
return `offset / page_size` (integer division, no alignment check). -/
def PagedFile.append_page (f : PagedFile) (buf : List Nat) : PagedFile × Nat :=
  let offset := f.contents.length
  let pageno := offset / f.page_size
  ({ f with contents := f.contents ++ buf.take f.page_size }, pageno)

/-- A concrete file used to exercise `Storage.PagedFile.append_page`. -/
def smallFile : PagedFile := ⟨[], 4⟩

/-- A concrete misaligned file: 100 bytes with page size 4096. -/
def misalignedFile : PagedFile := ⟨List.replicate 100 7, 4096⟩

end Storage

/-! # Theorems

## Pointwise lemmas for the byte store -/

theorem upd_apply (m : Mem) (i v j : Nat) : upd m i v j = if j = i then v else m j := rfl

theorem writeList_apply (l : List Nat) : ∀ (m : Mem) (off p : Nat),
    writeList m off l p =
      if off ≤ p ∧ p < off + l.length then l.getD (p - off) 0 else m p := by
  induction l with
  | nil =>
    intro m off p
    rw [show writeList m off [] p = m p from rfl,
      if_neg (by simp only [List.length_nil, Nat.add_zero]; omega)]
  | cons b bs ih =>
    intro m off p
    rw [show writeList m off (b :: bs) = writeList (upd m off b) (off + 1) bs from rfl, ih]
    by_cases hp : p = off
    · subst hp
      rw [if_neg (by omega), if_pos ⟨Nat.le_refl _, by simp only [List.length_cons]; omega⟩]
      simp [upd]
    · by_cases hin : off ≤ p ∧ p < off + (b :: bs).length
      · rw [if_pos (by simp only [List.length_cons] at hin ⊢; omega), if_pos hin]
        have h1 : p - (off + 1) + 1 = p - off := by omega
        rw [← h1]
        simp [List.getD_cons_succ]
      · rw [if_neg (by simp at hin ⊢; omega), if_neg hin]
        simp [upd, hp]

theorem readList_length (m : Mem) (off n : Nat) : (readList m off n).length = n := by
  simp [readList]

theorem readList_congr {m1 m2 : Mem} (off n : Nat)
    (h : ∀ p, off ≤ p → p < off + n → m1 p = m2 p) :
    readList m1 off n = readList m2 off n := by
  apply List.ext_getElem (by simp [readList])
  intro i h1 h2
  simp only [readList, List.getElem_map, List.getElem_range]
  exact h (off + i) (Nat.le_add_right _ _) (by simp [readList] at h1; omega)

theorem readList_writeList (m : Mem) (off : Nat) (l : List Nat) :
    readList (writeList m off l) off l.length = l := by
  apply List.ext_getElem (by simp [readList])
  intro i h1 h2
  simp only [readList, List.getElem_map, List.getElem_range]
  rw [writeList_apply, if_pos ⟨Nat.le_add_right _ _, by omega⟩]
  rw [Nat.add_sub_cancel_left]
  exact List.getD_eq_getElem l 0 h2

theorem readList_writeList_of_disjoint {off : Nat} {l : List Nat} {q n : Nat} (m : Mem)
    (h : q + n ≤ off ∨ off + l.length ≤ q) :
    readList (writeList m off l) q n = readList m q n := by
  apply readList_congr
  intro p h1 h2
  rw [writeList_apply, if_neg (by omega)]

theorem readU16_writeList_of_disjoint {off : Nat} {l : List Nat} {q : Nat} (m : Mem)
    (h : q + 2 ≤ off ∨ off + l.length ≤ q) :
    readU16 (writeList m off l) q = readU16 m q := by
  simp only [readU16]
  rw [writeList_apply, writeList_apply, if_neg (by omega), if_neg (by omega)]

theorem bytesOfU16_length (v : Nat) : (bytesOfU16 v).length = 2 := rfl

theorem readU16_writeU16_of_disjoint {off q : Nat} (m : Mem) (v : Nat)
    (h : q + 2 ≤ off ∨ off + 2 ≤ q) :
    readU16 (writeU16 m off v) q = readU16 m q :=
  readU16_writeList_of_disjoint m (by rw [bytesOfU16_length]; exact h)

theorem readList_writeU16_of_disjoint {off q n : Nat} (m : Mem) (v : Nat)
    (h : q + n ≤ off ∨ off + 2 ≤ q) :
    readList (writeU16 m off v) q n = readList m q n :=
  readList_writeList_of_disjoint m (by rw [bytesOfU16_length]; exact h)

theorem readU16_writeU16 (m : Mem) (off v : Nat) (hv : v < 65536) :
    readU16 (writeU16 m off v) off = v := by
  simp only [readU16, writeU16, writeList_apply, bytesOfU16_length]
  rw [if_pos (by omega), if_pos (by omega)]
  have h1 : off - off = 0 := by omega
  have h2 : off + 1 - off = 1 := by omega
  rw [h1, h2]
  simp only [bytesOfU16, List.getD_cons_zero, List.getD_cons_succ]
  omega

/-! ## Slotted page: invariant and step lemmas -/

theorem sumLens_append (rs : List (List Nat)) (r : List Nat) :
    sumLens (rs ++ [r]) = sumLens rs + r.length := by
  simp [sumLens]

theorem sumLens_take_le (rs : List (List Nat)) (k : Nat) :
    sumLens (rs.take k) ≤ sumLens rs := by
  induction rs generalizing k with
  | nil => simp [sumLens]
  | cons a as ih =>
    cases k with
    | zero => simp [sumLens]
    | succ k =>
      simp only [List.take_succ_cons, sumLens, List.map_cons, List.sum_cons]
      exact Nat.add_le_add_left (ih k) _

theorem sum_map_add_four (rs : List (List Nat)) :
    (rs.map (fun r => r.length + 4)).sum = sumLens rs + 4 * rs.length := by
  induction rs with
  | nil => simp [sumLens]
  | cons a as ih =>
    simp only [List.map_cons, List.sum_cons, sumLens, List.length_cons] at *
    omega

theorem good_default : Good SlottedPage.default [] := by
  refine ⟨?_, ?_, by simp [sumLens, PAGESIZE], fun i h => by simp at h⟩
  · show readU16 (writeU16 zeroMem 0 PAGESIZE) 2 = 0
    rw [readU16_writeU16_of_disjoint zeroMem PAGESIZE (by omega)]
    simp [readU16, zeroMem]
  · show readU16 (writeU16 zeroMem 0 PAGESIZE) 0 = PAGESIZE - sumLens []
    rw [readU16_writeU16 zeroMem 0 PAGESIZE (by norm_num [PAGESIZE])]
    simp [sumLens]

theorem insert_record_err (pg : SlottedPage) (r : List Nat)
    (h : pg.available_bytes < r.length + 4) :
    pg.insert_record r = (pg, .error ()) := by
  unfold SlottedPage.insert_record
  by_cases h1 : 65535 < r.length
  · simp [h1]
  · simp [h1, h]

theorem insert_record_ok (pg : SlottedPage) (r : List Nat)
    (h65 : ¬ 65535 < r.length) (hcap : ¬ pg.available_bytes < r.length + 4) :
    pg.insert_record r =
      ((((pg.write_record_count (pg.record_count + 1)).write_record_header pg.record_count
            ((pg.write_record_count (pg.record_count + 1)).end_of_free_space - r.length)
            r.length).write_end_of_free_space
            ((pg.write_record_count (pg.record_count + 1)).end_of_free_space - r.length)).write_record_at
            ((pg.write_record_count (pg.record_count + 1)).end_of_free_space - r.length) r,
       .ok pg.record_count) := by
  simp only [SlottedPage.insert_record]
  rw [if_neg h65, if_neg hcap]

theorem insert_step (pg : SlottedPage) (rs : List (List Nat)) (r : List Nat)
    (hg : Good pg rs) (hr : r.length + 4 ≤ pg.available_bytes) :
    (pg.insert_record r).2 = .ok rs.length ∧ Good (pg.insert_record r).1 (rs ++ [r]) := by
  obtain ⟨hcnt, heofs, hbound, hrec⟩ := hg
  have hP : PAGESIZE = 16384 := rfl
  set n := rs.length with hn
  set S := sumLens rs with hS
  have havail : pg.available_bytes = PAGESIZE - S - (4 + 4 * n) := by
    simp only [SlottedPage.available_bytes, SlottedPage.header_size, hcnt, heofs]
  have hr' : r.length + 4 ≤ PAGESIZE - S - (4 + 4 * n) := havail ▸ hr
  set L := r.length with hL
  set offv := PAGESIZE - S - L with hoffv
  have hoff8 : 8 + 4 * n ≤ offv := by omega
  have hoffL : offv + L = PAGESIZE - S := by omega
  have hL65 : L < 65536 := by omega
  have hn65 : n + 1 < 65536 := by omega
  have hoffv65 : offv < 65536 := by omega
  set d1 : Mem := writeU16 pg.data 2 (n + 1) with hd1
  set d2a : Mem := writeU16 d1 (4 + 4 * n) offv with hd2a
  set d2 : Mem := writeU16 d2a (4 + 4 * n + 2) L with hd2
  set d3 : Mem := writeU16 d2 0 offv with hd3
  set d4 : Mem := writeList d3 offv r with hd4
  have heofs1 : (pg.write_record_count (n + 1)).end_of_free_space = PAGESIZE - S := by
    show readU16 (writeU16 pg.data 2 (n + 1)) 0 = PAGESIZE - S
    rw [readU16_writeU16_of_disjoint pg.data (n + 1) (Or.inl (by omega))]
    exact heofs
  have hok := insert_record_ok pg r (by omega) (by omega)
  rw [hcnt, heofs1, ← hL, ← hoffv] at hok
  have hdata : (pg.insert_record r).1.data = d4 := by rw [hok]; rfl
  have hsnd : (pg.insert_record r).2 = .ok n := by rw [hok]
  -- the record-count field of the result
  have hcount4 : (pg.insert_record r).1.record_count = n + 1 := by
    show readU16 (pg.insert_record r).1.data 2 = n + 1
    rw [hdata]
    have e1 : readU16 d4 2 = readU16 d3 2 :=
      readU16_writeList_of_disjoint d3 (Or.inl (by omega))
    have e2 : readU16 d3 2 = readU16 d2 2 :=
      readU16_writeU16_of_disjoint d2 offv (Or.inr (by omega))
    have e3 : readU16 d2 2 = readU16 d2a 2 :=
      readU16_writeU16_of_disjoint d2a L (Or.inl (by omega))
    have e4 : readU16 d2a 2 = readU16 d1 2 :=
      readU16_writeU16_of_disjoint d1 offv (Or.inl (by omega))
    have e5 : readU16 d1 2 = n + 1 := readU16_writeU16 pg.data 2 (n + 1) (by omega)
    rw [e1, e2, e3, e4, e5]
  -- the end-of-free-space field of the result
  have heofs4 : (pg.insert_record r).1.end_of_free_space = offv := by
    show readU16 (pg.insert_record r).1.data 0 = offv
    rw [hdata]
    have f1 : readU16 d4 0 = readU16 d3 0 :=
      readU16_writeList_of_disjoint d3 (Or.inl (by omega))
    have f2 : readU16 d3 0 = offv := readU16_writeU16 d2 0 offv hoffv65
    rw [f1, f2]
  refine ⟨by rw [hsnd], hcount4.trans (by simp), ?_, ?_, ?_⟩
  · rw [heofs4, sumLens_append, ← hS, ← hL]
    omega
  · rw [sumLens_append, ← hS, ← hL, List.length_append]
    simp only [List.length_cons, List.length_nil]
    omega
  · intro i hi
    have hi' : i < n + 1 := by
      have := hi
      simp only [List.length_append, List.length_cons, List.length_nil, ← hn] at this
      omega
    by_cases hilt : i < n
    · -- an old record: directory entry and payload are untouched
      have hold := hrec i (hn ▸ hilt)
      have hhdr := hold.1
      rw [SlottedPage.record_header, if_pos (hcnt ▸ hn ▸ hilt)] at hhdr
      have hoffi0 := congrArg (fun o => (o.getD (0, 0)).1) hhdr
      have hleni0 := congrArg (fun o => (o.getD (0, 0)).2) hhdr
      simp only [Option.getD_some] at hoffi0 hleni0
      set offi := PAGESIZE - sumLens (rs.take (i + 1)) with hoffi
      have htk : sumLens (rs.take (i + 1)) ≤ S := hS ▸ sumLens_take_le rs (i + 1)
      have hoffiL : offv + L ≤ offi := by omega
      have hq1 : readU16 d4 (SlottedPage.record_header_offset i) = readU16 pg.data (SlottedPage.record_header_offset i) := by
        simp only [SlottedPage.record_header_offset]
        have e1 : readU16 d4 (4 + 4 * i) = readU16 d3 (4 + 4 * i) :=
          readU16_writeList_of_disjoint d3 (Or.inl (by omega))
        have e2 : readU16 d3 (4 + 4 * i) = readU16 d2 (4 + 4 * i) :=
          readU16_writeU16_of_disjoint d2 offv (Or.inr (by omega))
        have e3 : readU16 d2 (4 + 4 * i) = readU16 d2a (4 + 4 * i) :=
          readU16_writeU16_of_disjoint d2a L (Or.inl (by omega))
        have e4 : readU16 d2a (4 + 4 * i) = readU16 d1 (4 + 4 * i) :=
          readU16_writeU16_of_disjoint d1 offv (Or.inl (by omega))
        have e5 : readU16 d1 (4 + 4 * i) = readU16 pg.data (4 + 4 * i) :=
          readU16_writeU16_of_disjoint pg.data (n + 1) (Or.inr (by omega))
        rw [e1, e2, e3, e4, e5]
      have hq2 : readU16 d4 (SlottedPage.record_header_offset i + 2) = readU16 pg.data (SlottedPage.record_header_offset i + 2) := by
        simp only [SlottedPage.record_header_offset]
        have e1 : readU16 d4 (4 + 4 * i + 2) = readU16 d3 (4 + 4 * i + 2) :=
          readU16_writeList_of_disjoint d3 (Or.inl (by omega))
        have e2 : readU16 d3 (4 + 4 * i + 2) = readU16 d2 (4 + 4 * i + 2) :=
          readU16_writeU16_of_disjoint d2 offv (Or.inr (by omega))
        have e3 : readU16 d2 (4 + 4 * i + 2) = readU16 d2a (4 + 4 * i + 2) :=
          readU16_writeU16_of_disjoint d2a L (Or.inl (by omega))
        have e4 : readU16 d2a (4 + 4 * i + 2) = readU16 d1 (4 + 4 * i + 2) :=
          readU16_writeU16_of_disjoint d1 offv (Or.inl (by omega))
        have e5 : readU16 d1 (4 + 4 * i + 2) = readU16 pg.data (4 + 4 * i + 2) :=
          readU16_writeU16_of_disjoint pg.data (n + 1) (Or.inr (by omega))
        rw [e1, e2, e3, e4, e5]
      have hget : (rs ++ [r]).get ⟨i, hi⟩ = rs.get ⟨i, hn ▸ hilt⟩ := by
        simp only [List.get_eq_getElem]
        exact List.getElem_append_left (hn ▸ hilt)
      have htake : (rs ++ [r]).take (i + 1) = rs.take (i + 1) := by
        rw [List.take_append_eq_append_take, Nat.sub_eq_zero_of_le (by omega), List.take_zero,
          List.append_nil]
      constructor
      · rw [SlottedPage.record_header, if_pos (by rw [hcount4]; omega)]
        rw [hdata, hq1, hq2, hoffi0, hleni0, htake, hget]
      · rw [htake, hget, hdata, ← hoffi]
        have e1 : readList d4 offi (rs.get ⟨i, hn ▸ hilt⟩).length =
            readList d3 offi (rs.get ⟨i, hn ▸ hilt⟩).length :=
          readList_writeList_of_disjoint d3 (Or.inr (by omega))
        have e2 : readList d3 offi (rs.get ⟨i, hn ▸ hilt⟩).length =
            readList d2 offi (rs.get ⟨i, hn ▸ hilt⟩).length :=
          readList_writeU16_of_disjoint d2 offv (Or.inr (by omega))
        have e3 : readList d2 offi (rs.get ⟨i, hn ▸ hilt⟩).length =
            readList d2a offi (rs.get ⟨i, hn ▸ hilt⟩).length :=
          readList_writeU16_of_disjoint d2a L (Or.inr (by omega))
        have e4 : readList d2a offi (rs.get ⟨i, hn ▸ hilt⟩).length =
            readList d1 offi (rs.get ⟨i, hn ▸ hilt⟩).length :=
          readList_writeU16_of_disjoint d1 offv (Or.inr (by omega))
        have e5 : readList d1 offi (rs.get ⟨i, hn ▸ hilt⟩).length =
            readList pg.data offi (rs.get ⟨i, hn ▸ hilt⟩).length :=
          readList_writeU16_of_disjoint pg.data (n + 1) (Or.inr (by omega))
        rw [e1, e2, e3, e4, e5]
        exact hoffi ▸ (hrec i (hn ▸ hilt)).2
    · -- the new record, at index i = n
      have hieq : i = n := by omega
      have htake : (rs ++ [r]).take (i + 1) = rs ++ [r] := by
        apply List.take_of_length_le
        simp only [List.length_append, List.length_cons, List.length_nil, ← hn]
        omega
      have hget : (rs ++ [r]).get ⟨i, hi⟩ = r := by
        simp only [List.get_eq_getElem]
        exact List.getElem_concat_length rs r i (hieq.trans hn) _
      have hnewoff : readU16 d4 (SlottedPage.record_header_offset i) = offv := by
        simp only [SlottedPage.record_header_offset, hieq]
        have g1 : readU16 d4 (4 + 4 * n) = readU16 d3 (4 + 4 * n) :=
          readU16_writeList_of_disjoint d3 (Or.inl (by omega))
        have g2 : readU16 d3 (4 + 4 * n) = readU16 d2 (4 + 4 * n) :=
          readU16_writeU16_of_disjoint d2 offv (Or.inr (by omega))
        have g3 : readU16 d2 (4 + 4 * n) = readU16 d2a (4 + 4 * n) :=
          readU16_writeU16_of_disjoint d2a L (Or.inl (by omega))
        have g4 : readU16 d2a (4 + 4 * n) = offv := readU16_writeU16 d1 (4 + 4 * n) offv hoffv65
        rw [g1, g2, g3, g4]
      have hnewlen : readU16 d4 (SlottedPage.record_header_offset i + 2) = L := by
        simp only [SlottedPage.record_header_offset, hieq]
        have g1 : readU16 d4 (4 + 4 * n + 2) = readU16 d3 (4 + 4 * n + 2) :=
          readU16_writeList_of_disjoint d3 (Or.inl (by omega))
        have g2 : readU16 d3 (4 + 4 * n + 2) = readU16 d2 (4 + 4 * n + 2) :=
          readU16_writeU16_of_disjoint d2 offv (Or.inr (by omega))
        have g3 : readU16 d2 (4 + 4 * n + 2) = L := readU16_writeU16 d2a (4 + 4 * n + 2) L hL65
        rw [g1, g2, g3]
      constructor
      · rw [SlottedPage.record_header, if_pos (by rw [hcount4]; omega)]
        rw [hdata, hnewoff, hnewlen, htake, hget, sumLens_append, ← hS, ← hL]
        rw [show PAGESIZE - (S + L) = offv from by omega]
      · rw [htake, hget, hdata, sumLens_append, ← hS, ← hL,
          show PAGESIZE - (S + L) = offv from by omega]
        show readList (writeList d3 offv r) offv r.length = r
        exact readList_writeList d3 offv r

theorem insertAll_good : ∀ (rs : List (List Nat)) (pg0 : SlottedPage) (rs0 : List (List Nat)),
    Good pg0 rs0 → ∀ pg, insertAll pg0 rs = some pg → Good pg (rs0 ++ rs) := by
  intro rs
  induction rs with
  | nil =>
    intro pg0 rs0 h pg hia
    simp only [insertAll, Option.some.injEq] at hia
    subst hia
    simpa using h
  | cons r rs ih =>
    intro pg0 rs0 h pg hia
    rcases hres : pg0.insert_record r with ⟨pg1, res⟩
    simp only [insertAll] at hia
    rw [hres] at hia
    cases res with
    | error e => simp at hia
    | ok k =>
      simp only at hia
      have hguard : r.length + 4 ≤ pg0.available_bytes := by
        by_contra hg
        push_neg at hg
        have herr := insert_record_err pg0 r hg
        rw [hres] at herr
        simp at herr
      have hstep := insert_step pg0 rs0 r h hguard
      rw [hres] at hstep
      have hgood1 : Good pg1 (rs0 ++ [r]) := hstep.2
      have := ih pg1 (rs0 ++ [r]) hgood1 pg hia
      simpa [List.append_assoc] using this

/-- **C5**. Slotted page insert/get semantics: on every page reachable from
`default()` by successful inserts, `insert_record(bytes)` fails with a
capacity error exactly when `reclen + 4 > available_bytes` and otherwise
decrements `end_of_free_space` by `reclen`, writes the record at the new
`end_of_free_space`, appends the `(new_end, reclen)` pair to the slot
directory, increments `record_count`, and returns the old `record_count`;
and `get_record(record_id)` returns the stored byte range when
`record_id < record_count` and `none` otherwise. -/
theorem c5_slotted_insert_get_semantics (rs : List (List Nat)) (pg : SlottedPage)
    (hreach : insertAll SlottedPage.default rs = some pg) : C5Concl rs pg := by
  have hg : Good pg rs := by
    have := insertAll_good rs SlottedPage.default [] good_default pg hreach
    simpa using this
  obtain ⟨hcnt, heofs, hbound, hrec⟩ := hg
  have hP : PAGESIZE = 16384 := rfl
  constructor
  · intro r
    refine ⟨fun hcap => insert_record_err pg r hcap, fun hr => ?_⟩
    obtain ⟨hok, hga⟩ := insert_step pg rs r ⟨hcnt, heofs, hbound, hrec⟩ hr
    obtain ⟨hcnt2, heofs2, hbound2, hrec2⟩ := hga
    have hsum : sumLens (rs ++ [r]) = sumLens rs + r.length := sumLens_append rs r
    have harith : PAGESIZE - (sumLens rs + r.length) = PAGESIZE - sumLens rs - r.length := by
      omega
    have hn' : rs.length < (rs ++ [r]).length := by simp
    have hlast := hrec2 rs.length hn'
    have htake : (rs ++ [r]).take (rs.length + 1) = rs ++ [r] :=
      List.take_of_length_le (by simp)
    have hget : (rs ++ [r]).get ⟨rs.length, hn'⟩ = r := by
      simp only [List.get_eq_getElem]
      exact List.getElem_concat_length rs r rs.length rfl _
    rw [htake, hget, hsum] at hlast
    refine ⟨by rw [hok, hcnt], ?_, ?_, ?_, ?_⟩
    · rw [heofs2, hsum, heofs]
      omega
    · rw [hcnt2, hcnt]
      simp
    · rw [hcnt, heofs, hlast.1, harith]
    · rw [heofs, ← harith]
      exact hlast.2
  · intro rid
    constructor
    · intro hlt
      rw [hcnt] at hlt
      refine ⟨hlt, ?_⟩
      have hh := hrec rid hlt
      rw [SlottedPage.get_record, hh.1]
      simp only [Option.map_some']
      rw [hh.2]
    · intro hge
      rw [SlottedPage.get_record, SlottedPage.record_header, if_neg (by omega)]
      rfl

theorem c5_witness :
    insertAll SlottedPage.default [[1, 2, 3]] =
      some ((insertAll SlottedPage.default [[1, 2, 3]]).getD SlottedPage.default) ∧
    C5Concl [[1, 2, 3]] ((insertAll SlottedPage.default [[1, 2, 3]]).getD SlottedPage.default) :=
  ⟨rfl, c5_slotted_insert_get_semantics _ _ rfl⟩

/-- **C6**. Slotted page accounting invariant: for every page obtained from
`default()` by successful inserts of records of sizes `size_i`,
`free_space() + Σ (size_i + 4) + 4 = PAGESIZE`. -/
theorem c6_slotted_accounting (rs : List (List Nat)) (pg : SlottedPage)
    (hreach : insertAll SlottedPage.default rs = some pg) :
    pg.free_space + (rs.map (fun r => r.length + 4)).sum + 4 = PAGESIZE := by
  have hg : Good pg rs := by
    have := insertAll_good rs SlottedPage.default [] good_default pg hreach
    simpa using this
  obtain ⟨hcnt, heofs, hbound, _⟩ := hg
  rw [sum_map_add_four]
  simp only [SlottedPage.free_space, SlottedPage.available_bytes, SlottedPage.header_size,
    hcnt, heofs]
  omega

theorem c6_witness :
    insertAll SlottedPage.default [[1, 2, 3]] =
      some ((insertAll SlottedPage.default [[1, 2, 3]]).getD SlottedPage.default) ∧
    ((insertAll SlottedPage.default [[1, 2, 3]]).getD SlottedPage.default).free_space +
      (([[1, 2, 3]] : List (List Nat)).map (fun r => r.length + 4)).sum + 4 = PAGESIZE :=
  ⟨rfl, c6_slotted_accounting _ _ rfl⟩

/-- **C10**. Capacity failure is atomic: on a well-formed slotted page
(`header_size ≤ end_of_free_space`, as holds for every page the API can
produce), an insert whose `reclen + 4` exceeds `available_bytes` returns an
error and returns the page byte-for-byte unchanged, so all subsequent
`get_record` results are unaffected. -/
theorem c10_insert_capacity_error_atomic (pg : SlottedPage) (r : List Nat)
    (_hwf : pg.header_size ≤ pg.end_of_free_space)
    (hcap : pg.available_bytes < r.length + 4) :
    pg.insert_record r = (pg, .error ()) :=
  insert_record_err pg r hcap

theorem c10_witness :
    SlottedPage.default.header_size ≤ SlottedPage.default.end_of_free_space ∧
    SlottedPage.default.available_bytes < (List.replicate 16377 0).length + 4 ∧
    SlottedPage.default.insert_record (List.replicate 16377 0) =
      (SlottedPage.default, .error ()) :=
  ⟨by decide, by rw [List.length_replicate]; decide,
    c10_insert_capacity_error_atomic _ _ (by decide) (by rw [List.length_replicate]; decide)⟩

/-! ## C7: `PagedFile::append_page` -/

/-- **C7 counterexample**: on a file whose end-of-file offset (100) is not a
multiple of the page size (4096), `append_page` does not fail — it returns
the truncated page number `100 / 4096 = 0`.  (In the source the function has
no alignment check at all: it computes `offset / page_size` and returns it.) -/
theorem c7_counterexample :
    Storage.misalignedFile.contents.length % Storage.misalignedFile.page_size ≠ 0 ∧
    (Storage.misalignedFile.append_page (List.replicate 4096 1)).2 = 0 := by
  constructor
  · show (List.replicate 100 7).length % 4096 ≠ 0
    rw [List.length_replicate]
    decide
  · show (List.replicate 100 7).length / 4096 = 0
    rw [List.length_replicate]

/-- **C7 amended**. `append_page(in_buf)` seeks to the end of file, writes
exactly `page_size` bytes from `in_buf`, calls `sync_data`, and returns
`offset / page_size` (integer division) where `offset` is the pre-write
end-of-file offset; when that offset is not a multiple of the page size the
call does NOT fail: it still appends and returns the truncated quotient. -/
theorem c7_append_page_amended (f : Storage.PagedFile) (buf : List Nat)
    (hlen : f.page_size ≤ buf.length) :
    (f.append_page buf).2 = f.contents.length / f.page_size ∧
    (f.append_page buf).1.contents = f.contents ++ buf.take f.page_size ∧
    (buf.take f.page_size).length = f.page_size ∧
    (f.append_page buf).1.page_size = f.page_size := by
  refine ⟨rfl, rfl, ?_, rfl⟩
  rw [List.length_take]
  omega

theorem c7_witness :
    Storage.smallFile.page_size ≤ ([1, 2, 3, 4] : List Nat).length ∧
    ((Storage.smallFile.append_page [1, 2, 3, 4]).2 =
        Storage.smallFile.contents.length / Storage.smallFile.page_size ∧
      (Storage.smallFile.append_page [1, 2, 3, 4]).1.contents =
        Storage.smallFile.contents ++ ([1, 2, 3, 4] : List Nat).take Storage.smallFile.page_size ∧
      (([1, 2, 3, 4] : List Nat).take Storage.smallFile.page_size).length =
        Storage.smallFile.page_size ∧
      (Storage.smallFile.append_page [1, 2, 3, 4]).1.page_size =
        Storage.smallFile.page_size) :=
  ⟨by decide, c7_append_page_amended Storage.smallFile [1, 2, 3, 4] (by decide)⟩

/-! ## C8: hash page header layout -/

/-- **C8** (code bug, at the failing input `Page::<V>::new` with
`size_of::<V>() = 16`, `hash_seed = 7`): the constructor yields
`value_size() = 0`, not 16.  `set_page_type` writes the tag as a `u32` over
bytes `[4..8)` (so `[6..8)` holds the tag's zero high bytes, not
`value_size`), and `set_value_size` and `set_hash_algorithm` both address
bytes `[8..10)`, so the constructor's `set_hash_algorithm(XxHash = 0)`
overwrites the just-written value size — contradicting the layout in the
module's own documentation (and in the claim): `value_size` at `[6..8)`,
`hash_algo` at `[8..10)`, with disjoint field ranges. -/
theorem c8_hash_header_layout_bug :
    HashPage.value_size (HashPage.new 16 7) = 0 ∧
    HashPage.new 16 7 6 = 0 ∧ HashPage.new 16 7 7 = 0 ∧
    readU16 (HashPage.new 16 7) 4 = 0x2000 ∧
    HashPage.hash_seed (HashPage.new 16 7) = 7 := by
  decide

/-! ## C9: CRC framing

The key property is that every CRC step is injective in the running state
(for states below `2 ^ 32`), so two byte streams that differ in exactly one
byte can never fold to the same checksum. -/

theorem crcBit_lt {c : Nat} (h : c < 2 ^ 32) : crcBit c < 2 ^ 32 := by
  have h1 : c / 2 < 2 ^ 32 := by omega
  by_cases hp : c % 2 = 1
  · simpa [crcBit, hp] using Nat.xor_lt_two_pow h1 (by norm_num [CRCPOLY])
  · simpa [crcBit, hp] using h1

theorem crcBit_parity {c : Nat} (h : c < 2 ^ 32) :
    (crcBit c).testBit 31 = decide (c % 2 = 1) := by
  have h1 : c / 2 < 2 ^ 31 := by omega
  have ht : (c / 2).testBit 31 = false := Nat.testBit_lt_two_pow h1
  by_cases hp : c % 2 = 1
  · have hpoly : CRCPOLY.testBit 31 = true := by decide
    simp [crcBit, hp, Nat.testBit_xor, ht, hpoly]
  · simp [crcBit, hp, ht]

theorem crcBit_inj {c1 c2 : Nat} (h1 : c1 < 2 ^ 32) (h2 : c2 < 2 ^ 32)
    (he : crcBit c1 = crcBit c2) : c1 = c2 := by
  have hpar : decide (c1 % 2 = 1) = decide (c2 % 2 = 1) := by
    rw [← crcBit_parity h1, ← crcBit_parity h2, he]
  have hpar2 : c1 % 2 = c2 % 2 := by
    rcases Nat.mod_two_eq_zero_or_one c1 with hc1 | hc1 <;>
      rcases Nat.mod_two_eq_zero_or_one c2 with hc2 | hc2 <;>
        simp [hc1, hc2] at hpar ⊢
  have hdiv : c1 / 2 = c2 / 2 := by
    unfold crcBit at he
    by_cases hp : c1 % 2 = 1
    · rw [if_pos hp, if_pos (hpar2 ▸ hp)] at he
      have h3 := congrArg (fun x => x ^^^ CRCPOLY) he
      simpa only [Nat.xor_cancel_right] using h3
    · rw [if_neg hp, if_neg (hpar2 ▸ hp)] at he
      simpa using he
  omega

theorem crcBitN_lt (k : Nat) : ∀ {c : Nat}, c < 2 ^ 32 → crcBit^[k] c < 2 ^ 32 := by
  induction k with
  | zero => intro c h; simpa using h
  | succ k ih =>
    intro c h
    rw [Function.iterate_succ_apply]
    exact ih (crcBit_lt h)

theorem crcBitN_inj (k : Nat) : ∀ {c1 c2 : Nat}, c1 < 2 ^ 32 → c2 < 2 ^ 32 →
    crcBit^[k] c1 = crcBit^[k] c2 → c1 = c2 := by
  induction k with
  | zero => intro c1 c2 _ _ h; simpa using h
  | succ k ih =>
    intro c1 c2 h1 h2 he
    rw [Function.iterate_succ_apply, Function.iterate_succ_apply] at he
    exact crcBit_inj h1 h2 (ih (crcBit_lt h1) (crcBit_lt h2) he)

theorem crcByte_lt {c b : Nat} (hc : c < 2 ^ 32) (hb : b < 2 ^ 32) : crcByte c b < 2 ^ 32 :=
  crcBitN_lt 8 (Nat.xor_lt_two_pow hc hb)

theorem crcByte_inj_left {c1 c2 b : Nat} (h1 : c1 < 2 ^ 32) (h2 : c2 < 2 ^ 32)
    (hb : b < 2 ^ 32) (he : crcByte c1 b = crcByte c2 b) : c1 = c2 := by
  have h4 := crcBitN_inj 8 (Nat.xor_lt_two_pow h1 hb) (Nat.xor_lt_two_pow h2 hb) he
  have h3 := congrArg (fun x => x ^^^ b) h4
  simpa only [Nat.xor_cancel_right] using h3

theorem crcByte_ne_right {c b1 b2 : Nat} (hc : c < 2 ^ 32) (hb1 : b1 < 2 ^ 32)
    (hb2 : b2 < 2 ^ 32) (hne : b1 ≠ b2) : crcByte c b1 ≠ crcByte c b2 := by
  intro he
  have h4 := crcBitN_inj 8 (Nat.xor_lt_two_pow hc hb1) (Nat.xor_lt_two_pow hc hb2) he
  have h3 := congrArg (fun x => c ^^^ x) h4
  simp only [← Nat.xor_assoc, Nat.xor_self, Nat.zero_xor] at h3
  exact hne h3

theorem foldl_crcByte_lt : ∀ (l : List Nat) (c : Nat), c < 2 ^ 32 →
    (∀ b ∈ l, b < 256) → l.foldl crcByte c < 2 ^ 32 := by
  intro l
  induction l with
  | nil => intro c h _; simpa using h
  | cons b bs ih =>
    intro c hc hb
    rw [List.foldl_cons]
    have hb0 : b < 2 ^ 32 := lt_trans (hb b (by simp)) (by norm_num)
    exact ih _ (crcByte_lt hc hb0) (fun x hx => hb x (by simp [hx]))

theorem foldl_crcByte_inj : ∀ (l : List Nat) (c1 c2 : Nat), c1 < 2 ^ 32 → c2 < 2 ^ 32 →
    (∀ b ∈ l, b < 256) → l.foldl crcByte c1 = l.foldl crcByte c2 → c1 = c2 := by
  intro l
  induction l with
  | nil => intro c1 c2 _ _ _ h; simpa using h
  | cons b bs ih =>
    intro c1 c2 h1 h2 hb he
    rw [List.foldl_cons, List.foldl_cons] at he
    have hb0 : b < 2 ^ 32 := lt_trans (hb b (by simp)) (by norm_num)
    exact crcByte_inj_left h1 h2 hb0
      (ih _ _ (crcByte_lt h1 hb0) (crcByte_lt h2 hb0) (fun x hx => hb x (by simp [hx])) he)

theorem foldl_crcByte_set_ne : ∀ (l : List Nat) (j v c : Nat), c < 2 ^ 32 →
    (∀ b ∈ l, b < 256) → v < 256 → ∀ (hj : j < l.length), v ≠ l.get ⟨j, hj⟩ →
    (l.set j v).foldl crcByte c ≠ l.foldl crcByte c := by
  intro l
  induction l with
  | nil => intro j v c _ _ _ hj; simp at hj
  | cons b bs ih =>
    intro j v c hc hb hv hj hne
    have hbb : b < 256 := hb b (by simp)
    have hb0 : b < 2 ^ 32 := lt_trans hbb (by norm_num)
    have hv0 : v < 2 ^ 32 := lt_trans hv (by norm_num)
    have hbs : ∀ x ∈ bs, x < 256 := fun x hx => hb x (by simp [hx])
    cases j with
    | zero =>
      simp only [List.set_cons_zero, List.foldl_cons]
      intro he
      have hne0 : v ≠ b := by simpa using hne
      exact crcByte_ne_right hc hv0 hb0 hne0
        (foldl_crcByte_inj bs _ _ (crcByte_lt hc hv0) (crcByte_lt hc hb0) hbs he)
    | succ j =>
      simp only [List.set_cons_succ, List.foldl_cons]
      exact ih j v (crcByte c b) (crcByte_lt hc hb0) hbs hv (by simpa using hj)
        (by simpa using hne)

theorem crc32_lt (l : List Nat) (hb : ∀ b ∈ l, b < 256) : crc32 l < 2 ^ 32 := by
  unfold crc32
  exact Nat.xor_lt_two_pow (foldl_crcByte_lt l _ (by norm_num) hb) (by norm_num)

theorem crc32_set_ne (l : List Nat) (j v : Nat) (hb : ∀ b ∈ l, b < 256) (hv : v < 256)
    (hj : j < l.length) (hne : v ≠ l.get ⟨j, hj⟩) : crc32 (l.set j v) ≠ crc32 l := by
  unfold crc32
  intro he
  have h3 := congrArg (fun x => x ^^^ 0xFFFFFFFF) he
  simp only [Nat.xor_cancel_right] at h3
  exact foldl_crcByte_set_ne l j v _ (by norm_num) hb hv hj hne h3

theorem bytesOfU32_length (v : Nat) : (bytesOfU32 v).length = 4 := rfl

theorem readU32_writeU32 (m : Mem) (off v : Nat) (hv : v < 4294967296) :
    readU32 (writeU32 m off v) off = v := by
  simp only [readU32, writeU32, writeList_apply, bytesOfU32_length]
  rw [if_pos (by omega), if_pos (by omega), if_pos (by omega), if_pos (by omega)]
  have e0 : off - off = 0 := by omega
  have e1 : off + 1 - off = 1 := by omega
  have e2 : off + 2 - off = 2 := by omega
  have e3 : off + 3 - off = 3 := by omega
  rw [e0, e1, e2, e3]
  simp only [bytesOfU32, List.getD_cons_zero, List.getD_cons_succ]
  omega

theorem pageBytes_bounds {m : Mem} (h : ∀ i, 4 ≤ i → i < PAGESIZE → m i < 256) :
    ∀ b ∈ pageBytes m, b < 256 := by
  intro b hbm
  simp only [pageBytes, List.mem_map, List.mem_range] at hbm
  obtain ⟨j, hj, rfl⟩ := hbm
  have hP : PAGESIZE = 16384 := rfl
  exact h (4 + j) (by omega) (by omega)

theorem pageBytes_writeU32_zero (m : Mem) (v : Nat) :
    pageBytes (writeU32 m 0 v) = pageBytes m := by
  apply List.ext_getElem (by simp [pageBytes])
  intro j h1 h2
  simp only [pageBytes, List.getElem_map, List.getElem_range]
  rw [show writeU32 m 0 v = writeList m 0 (bytesOfU32 v) from rfl, writeList_apply,
    if_neg (by rw [bytesOfU32_length]; omega)]

theorem pageBytes_upd (m : Mem) (i v : Nat) (h4 : 4 ≤ i) (hP : i < PAGESIZE) :
    pageBytes (upd m i v) = (pageBytes m).set (i - 4) v := by
  apply List.ext_getElem (by simp [pageBytes])
  intro j h1 h2
  have hP16 : PAGESIZE = 16384 := rfl
  have hjlt : j < PAGESIZE - 4 := by simpa [pageBytes] using h1
  rw [List.getElem_set]
  simp only [pageBytes, List.getElem_map, List.getElem_range, upd_apply]
  by_cases he : 4 + j = i
  · rw [if_pos he, if_pos (by omega)]
  · rw [if_neg he, if_neg (by omega)]

theorem readU32_upd_zero_of_ge (m : Mem) (i v : Nat) (h4 : 4 ≤ i) :
    readU32 (upd m i v) 0 = readU32 m 0 := by
  simp only [readU32, upd_apply]
  rw [if_neg (by omega), if_neg (by omega), if_neg (by omega), if_neg (by omega)]

theorem into_aligned_apply_of_ge (m : Mem) (i : Nat) (h4 : 4 ≤ i) :
    into_aligned m i = m i := by
  rw [show into_aligned m i = writeList m 0 (bytesOfU32 (crc32 (pageBytes m))) i from rfl,
    writeList_apply, if_neg (by rw [bytesOfU32_length]; omega)]

theorem readU32_into_aligned (m : Mem) (hb : ∀ i, 4 ≤ i → i < PAGESIZE → m i < 256) :
    readU32 (into_aligned m) 0 = crc32 (pageBytes m) :=
  readU32_writeU32 m 0 _ (crc32_lt _ (pageBytes_bounds hb))

/-- **C9**. CRC framing: serialising a page through the codec (checksum of
bytes `[4..PAGESIZE)` stored little-endian at `[0..4)`) makes `check_crc`
return `true`; and flipping any single bit of any byte in `[4..PAGESIZE)`
of the serialised buffer makes `check_crc` return `false`.  The byte-range
hypothesis states that the buffer holds `u8` values, as every
`aligned::Buffer` does. -/
theorem c9_crc_framing (m : Mem) (hb : ∀ i, 4 ≤ i → i < PAGESIZE → m i < 256) :
    check_crc (into_aligned m) = true ∧
    ∀ i k, 4 ≤ i → i < PAGESIZE → k < 8 →
      check_crc (upd (into_aligned m) i (into_aligned m i ^^^ 2 ^ k)) = false := by
  have hpb : pageBytes (into_aligned m) = pageBytes m := pageBytes_writeU32_zero m _
  have hr : readU32 (into_aligned m) 0 = crc32 (pageBytes m) := readU32_into_aligned m hb
  constructor
  · rw [check_crc, hpb, hr]
    exact beq_self_eq_true _
  · intro i k h4 hP hk
    have hP16 : PAGESIZE = 16384 := rfl
    have hmi : into_aligned m i = m i := into_aligned_apply_of_ge m i h4
    set v := into_aligned m i ^^^ 2 ^ k with hv
    have hvlt : v < 256 := by
      rw [hv, hmi]
      exact Nat.xor_lt_two_pow (hb i h4 hP)
        (Nat.pow_lt_pow_right (by norm_num) hk)
    have hgb : (pageBytes m).get ⟨i - 4, by simp [pageBytes]; omega⟩ = m i := by
      have hadd : 4 + (i - 4) = i := by omega
      simp only [List.get_eq_getElem, pageBytes, List.getElem_map, List.getElem_range, hadd]
    have hvne : v ≠ (pageBytes m).get ⟨i - 4, by simp [pageBytes]; omega⟩ := by
      rw [hgb, hv, hmi]
      intro hcon
      have h3 := congrArg (fun x => m i ^^^ x) hcon.symm
      simp only [← Nat.xor_assoc, Nat.xor_self, Nat.zero_xor, Nat.xor_zero] at h3
      exact absurd h3.symm (Nat.pos_iff_ne_zero.mp (Nat.pos_pow_of_pos k (by norm_num)))
    rw [check_crc]
    rw [pageBytes_upd _ i v h4 hP, hpb, readU32_upd_zero_of_ge _ i v h4, hr]
    rw [beq_eq_false_iff_ne]
    exact crc32_set_ne (pageBytes m) (i - 4) v (pageBytes_bounds hb) hvlt
      (by simp [pageBytes]; omega) hvne

theorem c9_witness :
    (∀ i, 4 ≤ i → i < PAGESIZE → zeroMem i < 256) ∧
    (check_crc (into_aligned zeroMem) = true ∧
      ∀ i k, 4 ≤ i → i < PAGESIZE → k < 8 →
        check_crc (upd (into_aligned zeroMem) i (into_aligned zeroMem i ^^^ 2 ^ k)) = false) :=
  ⟨fun i _ _ => by norm_num [zeroMem],
   c9_crc_framing zeroMem (fun i _ _ => by norm_num [zeroMem])⟩

/-! ## C2: clock sweep -/

theorem getD_set_self {α : Type} (l : List α) (i : Nat) (a d : α) (h : i < l.length) :
    (l.set i a).getD i d = a := by
  rw [List.getD_eq_getElem _ _ (by simpa using h)]
  simp [List.getElem_set]

theorem getD_set_ne {α : Type} (l : List α) (i j : Nat) (a d : α) (h : i ≠ j) :
    (l.set i a).getD j d = l.getD j d := by
  rcases Nat.lt_or_ge j l.length with hj | hj
  · rw [List.getD_eq_getElem _ _ (by simpa using hj), List.getD_eq_getElem _ _ hj]
    exact List.getElem_set_ne h _
  · rw [List.getD_eq_default _ _ (by simpa using hj), List.getD_eq_default _ _ hj]

theorem find?_congr_mem {α : Type} (l : List α) (p q : α → Bool)
    (h : ∀ a ∈ l, p a = q a) : l.find? p = l.find? q := by
  induction l with
  | nil => rfl
  | cons a as ih =>
    rw [List.find?_cons, List.find?_cons, h a (by simp)]
    cases q a
    · exact ih (fun x hx => h x (by simp [hx]))
    · rfl

theorem add_mod_ne {size : Nat} (x d1 d2 : Nat) (h1 : d1 < d2) (h2 : d2 - d1 < size) :
    (x + d1) % size ≠ (x + d2) % size := by
  intro he
  have hmod : (x + d1) ≡ (x + d2) [MOD size] := he
  have hd : d1 ≡ d2 [MOD size] := Nat.ModEq.add_left_cancel' x hmod
  have hdvd : size ∣ d2 - d1 := (Nat.modEq_iff_dvd' (Nat.le_of_lt h1)).mp hd
  have := Nat.le_of_dvd (by omega) hdvd
  omega

theorem sweepFind_zero (clock : List Bool) (size start o : Nat) :
    ClockManager.sweepFind clock size start o 0 = (clock, none) := rfl

theorem sweepFind_succ (clock : List Bool) (size start o fuel : Nat) :
    ClockManager.sweepFind clock size start o (fuel + 1) =
      if clock.getD ((start + o) % size) false then
        ClockManager.sweepFind (clock.set ((start + o) % size) false) size start (o + 1) fuel
      else (clock, some ((start + o) % size)) := rfl

theorem sweepFind_length : ∀ (fuel o : Nat) (clock : List Bool) (size start : Nat),
    (ClockManager.sweepFind clock size start o fuel).1.length = clock.length := by
  intro fuel
  induction fuel with
  | zero => intro o clock size start; rfl
  | succ fuel ih =>
    intro o clock size start
    rw [sweepFind_succ]
    cases hbit : clock.getD ((start + o) % size) false
    · rw [if_neg (by simp)]
    · rw [if_pos rfl, ih]
      exact List.length_set clock _ false

/-- While scanning, the bits examined after the current one live at positions
distinct from it, so clearing the current bit does not change what the rest
of the scan reads. -/
theorem sweep_pred_congr (clock : List Bool) (size start o fuel : Nat)
    (hle : o + (fuel + 1) ≤ size) :
    ∀ j ∈ List.range fuel,
      ((fun j => !clock.getD ((start + o + j) % size) false) ∘ Nat.succ) j =
      (fun j => !(clock.set ((start + o) % size) false).getD
        ((start + (o + 1) + j) % size) false) j := by
  intro j hj
  simp only [List.mem_range] at hj
  simp only [Function.comp_apply]
  have harg : start + o + Nat.succ j = start + (o + 1) + j := by omega
  rw [harg]
  have harg2 : start + (o + 1) + j = start + (o + 1 + j) := by omega
  have hne : (start + o) % size ≠ (start + (o + 1) + j) % size := by
    rw [harg2]
    exact add_mod_ne start o (o + 1 + j) (by omega) (by omega)
  rw [getD_set_ne clock _ _ false false hne]

theorem sweepFind_found : ∀ (fuel o : Nat) (clock : List Bool) (size start : Nat),
    o + fuel ≤ size →
    (ClockManager.sweepFind clock size start o fuel).2 =
      ((List.range fuel).find? (fun j => !clock.getD ((start + o + j) % size) false)).map
        (fun j => (start + o + j) % size) := by
  intro fuel
  induction fuel with
  | zero => intro o clock size start _; rfl
  | succ fuel ih =>
    intro o clock size start hle
    rw [sweepFind_succ, List.range_succ_eq_map, List.find?_cons]
    cases hbit : clock.getD ((start + o) % size) false
    · rw [if_neg (by simp)]
      have hp0 : (!clock.getD ((start + o + 0) % size) false) = true := by
        rw [Nat.add_zero, hbit]; rfl
      rw [hp0]
      simp
    · rw [if_pos rfl, ih (o + 1) _ size start (by omega)]
      have hp0 : (!clock.getD ((start + o + 0) % size) false) = false := by
        rw [Nat.add_zero, hbit]; rfl
      rw [hp0, List.find?_map, Option.map_map,
        find?_congr_mem _ _ _ (sweep_pred_congr clock size start o fuel hle)]
      congr 1
      funext j
      simp only [Function.comp_apply]
      congr 1
      omega

theorem scanCount_succ_of_set (clock : List Bool) (size start o fuel : Nat)
    (hle : o + (fuel + 1) ≤ size) (hbit : clock.getD ((start + o) % size) false = true) :
    scanCount clock size start o (fuel + 1) =
      scanCount (clock.set ((start + o) % size) false) size start (o + 1) fuel + 1 := by
  unfold scanCount
  rw [List.range_succ_eq_map, List.find?_cons]
  have hp0 : (!clock.getD ((start + o + 0) % size) false) = false := by
    rw [Nat.add_zero, hbit]; rfl
  rw [hp0, List.find?_map,
    find?_congr_mem _ _ _ (sweep_pred_congr clock size start o fuel hle)]
  cases (List.range fuel).find? (fun j => !(clock.set ((start + o) % size) false).getD
      ((start + (o + 1) + j) % size) false)
  · rfl
  · rfl

theorem scanCount_le (clock : List Bool) (size start o fuel : Nat) :
    scanCount clock size start o fuel ≤ fuel := by
  unfold scanCount
  cases h : (List.range fuel).find? (fun j => !clock.getD ((start + o + j) % size) false) with
  | none => exact Nat.le_refl fuel
  | some j0 =>
    have hmem := List.mem_of_find?_eq_some h
    simp only [List.mem_range] at hmem
    exact Nat.le_of_lt hmem

theorem sweepFind_clock_other : ∀ (fuel o : Nat) (clock : List Bool) (size start : Nat),
    o + fuel ≤ size →
    ∀ p, (∀ j, j < scanCount clock size start o fuel → p ≠ (start + o + j) % size) →
      (ClockManager.sweepFind clock size start o fuel).1.getD p false =
        clock.getD p false := by
  intro fuel
  induction fuel with
  | zero => intro o clock size start _ p _; rfl
  | succ fuel ih =>
    intro o clock size start hle p hp
    rw [sweepFind_succ]
    cases hbit : clock.getD ((start + o) % size) false
    · rw [if_neg (by simp)]
    · rw [if_pos rfl]
      have hsc := scanCount_succ_of_set clock size start o fuel hle hbit
      have hppos : p ≠ (start + o) % size := by
        have := hp 0 (by omega)
        simpa using this
      have hrest : ∀ j, j < scanCount (clock.set ((start + o) % size) false) size start
          (o + 1) fuel → p ≠ (start + (o + 1) + j) % size := by
        intro j hj
        have := hp (j + 1) (by omega)
        intro hcon
        apply this
        rw [hcon]
        congr 1
        omega
      rw [ih (o + 1) _ size start (by omega) p hrest,
        getD_set_ne clock _ _ false false (fun hcon => hppos hcon.symm)]

theorem sweepFind_clock_cleared : ∀ (fuel o : Nat) (clock : List Bool) (size start : Nat),
    o + fuel ≤ size → clock.length = size →
    ∀ j, j < scanCount clock size start o fuel →
      (ClockManager.sweepFind clock size start o fuel).1.getD
        ((start + o + j) % size) false = false := by
  intro fuel
  induction fuel with
  | zero =>
    intro o clock size start _ _ j hj
    simp only [scanCount, List.range_zero, List.find?_nil] at hj
    omega
  | succ fuel ih =>
    intro o clock size start hle hlen j hj
    rw [sweepFind_succ]
    cases hbit : clock.getD ((start + o) % size) false
    · -- selected immediately: nothing was cleared on this step
      exfalso
      have : scanCount clock size start o (fuel + 1) = 0 := by
        unfold scanCount
        rw [List.range_succ_eq_map, List.find?_cons]
        have hp0 : (!clock.getD ((start + o + 0) % size) false) = true := by
          rw [Nat.add_zero, hbit]; rfl
        rw [hp0]
      omega
    · rw [if_pos rfl]
      have hsc := scanCount_succ_of_set clock size start o fuel hle hbit
      cases j with
      | zero =>
        -- the bit cleared at this step stays clear through the recursion
        have hpos_lt : (start + o) % size < size := Nat.mod_lt _ (by omega)
        have hother : ∀ j, j < scanCount (clock.set ((start + o) % size) false) size start
            (o + 1) fuel → (start + o) % size ≠ (start + (o + 1) + j) % size := by
          intro j hjlt
          have hjf : j < fuel := Nat.lt_of_lt_of_le hjlt (scanCount_le _ _ _ _ _)
          have harg2 : start + (o + 1) + j = start + (o + 1 + j) := by omega
          rw [harg2]
          exact add_mod_ne start o (o + 1 + j) (by omega) (by omega)
        have harg0 : start + o + 0 = start + o := by omega
        rw [harg0, sweepFind_clock_other fuel (o + 1) _ size start (by omega) _ hother]
        exact getD_set_self clock _ false false (by omega)
      | succ j =>
        have harg : start + o + (j + 1) = start + (o + 1) + j := by omega
        rw [harg]
        exact ih (o + 1) _ size start (by omega)
          (by rw [List.length_set]; exact hlen) j (by omega)

theorem scanCount_eq_clearedCount (clock : List Bool) (size start : Nat) :
    scanCount clock size start 0 size = clearedCount clock size start := by
  unfold scanCount clearedCount firstFree
  have e1 : ∀ j ∈ List.range size,
      (fun j => !clock.getD ((start + 0 + j) % size) false) j =
      (fun o => !clock.getD ((start + o) % size) false) j := by
    intro j _
    rw [Nat.add_zero]
  rw [find?_congr_mem _ _ _ e1]

theorem sweep_eq (cm : ClockManager) (entry : Nat) :
    cm.sweep entry =
      (⟨(ClockManager.sweepFind cm.clock cm.clock.length cm.idx 0 cm.clock.length).2.getD cm.idx,
        (ClockManager.sweepFind cm.clock cm.clock.length cm.idx 0 cm.clock.length).1.set
          ((ClockManager.sweepFind cm.clock cm.clock.length cm.idx 0 cm.clock.length).2.getD
            cm.idx) true,
        cm.entries.set
          ((ClockManager.sweepFind cm.clock cm.clock.length cm.idx 0 cm.clock.length).2.getD
            cm.idx) (some entry)⟩,
       (ClockManager.sweepFind cm.clock cm.clock.length cm.idx 0 cm.clock.length).2.getD cm.idx,
       cm.entries.getD
         ((ClockManager.sweepFind cm.clock cm.clock.length cm.idx 0 cm.clock.length).2.getD
           cm.idx) none) := rfl

theorem sweep_spec (cm : ClockManager) (entry : Nat)
    (_hwf : cm.entries.length = cm.clock.length) (hidx : cm.idx < cm.clock.length)
    (hpos : 0 < cm.clock.length) : SweepSpecAt cm entry := by
  have hfound := sweepFind_found cm.clock.length 0 cm.clock cm.clock.length cm.idx (by omega)
  have e1 : (fun j => !cm.clock.getD ((cm.idx + 0 + j) % cm.clock.length) false) =
      (fun o => !cm.clock.getD ((cm.idx + o) % cm.clock.length) false) := by
    funext j
    rw [Nat.add_zero]
  have e2 : (fun j => (cm.idx + 0 + j) % cm.clock.length) =
      (fun o => (cm.idx + o) % cm.clock.length) := by
    funext j
    rw [Nat.add_zero]
  rw [e1, e2] at hfound
  have hff : (ClockManager.sweepFind cm.clock cm.clock.length cm.idx 0 cm.clock.length).2 =
      (firstFree cm.clock cm.clock.length cm.idx).map
        (fun o => (cm.idx + o) % cm.clock.length) := hfound
  have hsflen : (ClockManager.sweepFind cm.clock cm.clock.length cm.idx 0
      cm.clock.length).1.length = cm.clock.length :=
    sweepFind_length cm.clock.length 0 cm.clock cm.clock.length cm.idx
  have hclr := sweepFind_clock_cleared cm.clock.length 0 cm.clock cm.clock.length cm.idx
    (by omega) rfl
  have hoth := sweepFind_clock_other cm.clock.length 0 cm.clock cm.clock.length cm.idx
    (by omega)
  have hsceq := scanCount_eq_clearedCount cm.clock cm.clock.length cm.idx
  simp only [SweepSpecAt, sweep_eq, hff]
  cases hf : firstFree cm.clock cm.clock.length cm.idx with
  | none =>
    have hcc : clearedCount cm.clock cm.clock.length cm.idx = cm.clock.length := by
      unfold clearedCount
      rw [hf]
    simp only [Option.map_none', Option.getD_none]
    refine ⟨?_, ?_, ?_, ?_, ?_, ?_, ?_⟩
    · first | rfl | trivial
    · first | rfl | trivial
    · first | rfl | trivial
    · first | rfl | trivial
    · exact getD_set_self _ _ _ _ (by omega)
    · intro p hp hpne hpcl
      obtain ⟨j, hj, rfl⟩ := hpcl
      rw [getD_set_ne _ _ _ _ _ (fun hcon => hpne hcon.symm)]
      have harg : cm.idx + j = cm.idx + 0 + j := by omega
      rw [harg]
      apply hclr
      rw [hsceq, hcc]
      rw [hcc] at hj
      exact hj
    · intro p hp hpne hpo
      rw [getD_set_ne _ _ _ _ _ (fun hcon => hpne hcon.symm)]
      apply hoth
      intro j hj
      rw [hsceq, hcc] at hj
      have hpoj := hpo j (by rw [hcc]; exact hj)
      intro hcon
      apply hpoj
      have harg2 : cm.idx + 0 + j = cm.idx + j := by omega
      rw [hcon, harg2]
  | some o =>
    have homem := List.mem_of_find?_eq_some hf
    simp only [List.mem_range] at homem
    have hsel_lt : (cm.idx + o) % cm.clock.length < cm.clock.length :=
      Nat.mod_lt _ (by omega)
    have hcc : clearedCount cm.clock cm.clock.length cm.idx = o := by
      unfold clearedCount
      rw [hf]
    simp only [Option.map_some', Option.getD_some]
    refine ⟨?_, ?_, ?_, ?_, ?_, ?_, ?_⟩
    · first | rfl | trivial
    · first | rfl | trivial
    · first | rfl | trivial
    · first | rfl | trivial
    · exact getD_set_self _ _ _ _ (by omega)
    · intro p hp hpne hpcl
      obtain ⟨j, hj, rfl⟩ := hpcl
      rw [getD_set_ne _ _ _ _ _ (fun hcon => hpne hcon.symm)]
      have harg : cm.idx + j = cm.idx + 0 + j := by omega
      rw [harg]
      apply hclr
      rw [hsceq, hcc]
      rw [hcc] at hj
      exact hj
    · intro p hp hpne hpo
      rw [getD_set_ne _ _ _ _ _ (fun hcon => hpne hcon.symm)]
      apply hoth
      intro j hj
      rw [hsceq, hcc] at hj
      have hpoj := hpo j (by rw [hcc]; exact hj)
      intro hcon
      apply hpoj
      have harg2 : cm.idx + 0 + j = cm.idx + j := by omega
      rw [hcon, harg2]

/-- **C2**. Clock sweep: for every well-formed clock state, `sweep(new_key)`
scans forward from the hand with wraparound, clears each reference bit that
is 1, selects the first slot whose bit is 0 (or the hand's position when a
full pass finds none), installs `new_key` there with its bit set to 1, moves
the hand to the selected slot, and returns the slot index and the previous
resident; in particular, the fresh-clock-of-size-4 scenario
`sweep 100..103 = slots 0..3 with no evictions; sweep 104 = (0, some 100);
update 1; update 2; sweep 105 = (3, some 103); residents
[some 104, some 101, some 102, some 105]` holds. -/
theorem c2_clock_sweep (cm : ClockManager) (entry : Nat)
    (hwf : cm.entries.length = cm.clock.length) (hidx : cm.idx < cm.clock.length)
    (hpos : 0 < cm.clock.length) :
    SweepSpecAt cm entry ∧ ClockScenario :=
  ⟨sweep_spec cm entry hwf hidx hpos, by unfold ClockScenario; decide⟩

theorem c2_witness :
    (ClockManager.new 2).entries.length = (ClockManager.new 2).clock.length ∧
    (ClockManager.new 2).idx < (ClockManager.new 2).clock.length ∧
    0 < (ClockManager.new 2).clock.length ∧
    (SweepSpecAt (ClockManager.new 2) 42 ∧ ClockScenario) :=
  ⟨by decide, by decide, by decide,
    c2_clock_sweep (ClockManager.new 2) 42 (by decide) (by decide) (by decide)⟩

/-! ## C1, C3, C4: buffer pool -/

theorem lookupA_cons (k v k0 : Nat) (rest : List (Nat × Nat)) :
    lookupA ((k, v) :: rest) k0 = if k0 = k then some v else lookupA rest k0 := rfl

theorem lookupA_removeA (l : List (Nat × Nat)) (k k0 : Nat) :
    lookupA (removeA l k) k0 = if k0 = k then none else lookupA l k0 := by
  induction l with
  | nil =>
    simp only [removeA, List.filter_nil]
    by_cases h : k0 = k
    · rw [if_pos h]; rfl
    · rw [if_neg h]
  | cons e rest ih =>
    rcases e with ⟨ek, ev⟩
    simp only [removeA, List.filter_cons] at ih ⊢
    by_cases hek : ek = k
    · rw [show ((ek, ev).1 != k) = false by simp [hek]]
      simp only [Bool.false_eq_true, if_false]
      rw [ih]
      by_cases h0 : k0 = k
      · rw [if_pos h0, if_pos h0]
      · rw [if_neg h0, if_neg h0, lookupA_cons, if_neg (by omega)]
    · rw [show ((ek, ev).1 != k) = true by simp [hek]]
      simp only [if_true]
      rw [lookupA_cons, lookupA_cons]
      by_cases h1 : k0 = ek
      · rw [if_pos h1, if_pos h1, if_neg (by omega)]
      · rw [if_neg h1, if_neg h1, ih]

theorem lt_of_getD_eq_some {l : List (Option Nat)} {i k : Nat}
    (h : l.getD i none = some k) : i < l.length := by
  by_contra hge
  rw [List.getD_eq_default _ _ (by omega)] at h
  cases h

theorem getD_replicate_none (n i : Nat) :
    (List.replicate n (none : Option Nat)).getD i none = none := by
  rcases Nat.lt_or_ge i n with h | h
  · rw [List.getD_eq_getElem _ _ (by simpa using h)]
    simp
  · rw [List.getD_eq_default _ _ (by simpa using h)]

theorem sweepFind_some_lt : ∀ (fuel o : Nat) (clock : List Bool) (size start pos : Nat),
    0 < size → (ClockManager.sweepFind clock size start o fuel).2 = some pos →
    pos < size := by
  intro fuel
  induction fuel with
  | zero =>
    intro o clock size start pos _ h
    cases h
  | succ fuel ih =>
    intro o clock size start pos hpos h
    rw [sweepFind_succ] at h
    split at h
    · exact ih (o + 1) _ size start pos hpos h
    · have h2 : (start + o) % size = pos := by simpa using h
      rw [← h2]
      exact Nat.mod_lt _ hpos

theorem sweep_sel_lt (cm : ClockManager) (entry : Nat) (hidx : cm.idx < cm.clock.length) :
    (cm.sweep entry).2.1 < cm.clock.length := by
  rw [sweep_eq]
  cases hf : (ClockManager.sweepFind cm.clock cm.clock.length cm.idx 0 cm.clock.length).2 with
  | none => simpa using hidx
  | some pos =>
    simp only [Option.getD_some]
    exact sweepFind_some_lt cm.clock.length 0 cm.clock cm.clock.length cm.idx pos
      (by omega) hf

theorem sweep_entries_eq (cm : ClockManager) (entry : Nat) :
    (cm.sweep entry).1.entries = cm.entries.set (cm.sweep entry).2.1 (some entry) := by
  rw [sweep_eq]

theorem sweep_evicted_eq (cm : ClockManager) (entry : Nat) :
    (cm.sweep entry).2.2 = cm.entries.getD (cm.sweep entry).2.1 none := by
  rw [sweep_eq]

theorem sweep_idx_eq (cm : ClockManager) (entry : Nat) :
    (cm.sweep entry).1.idx = (cm.sweep entry).2.1 := by
  rw [sweep_eq]

theorem sweep_clock_len (cm : ClockManager) (entry : Nat) :
    (cm.sweep entry).1.clock.length = cm.clock.length := by
  rw [sweep_eq]
  show ((ClockManager.sweepFind cm.clock cm.clock.length cm.idx 0 cm.clock.length).1.set
    _ true).length = cm.clock.length
  rw [List.length_set]
  exact sweepFind_length cm.clock.length 0 cm.clock cm.clock.length cm.idx

theorem sweep_entries_len (cm : ClockManager) (entry : Nat) :
    (cm.sweep entry).1.entries.length = cm.entries.length := by
  rw [sweep_eq]
  exact List.length_set _ _ _

theorem update_entries_eq (cm : ClockManager) (i : Nat) : (cm.update i).entries = cm.entries :=
  rfl

theorem update_idx_eq (cm : ClockManager) (i : Nat) : (cm.update i).idx = cm.idx := rfl

theorem update_clock_len (cm : ClockManager) (i : Nat) :
    (cm.update i).clock.length = cm.clock.length :=
  List.length_set _ _ _

theorem new_wf (st : PagedFile) (n : Nat) (faults : List Bool) (hn : 0 < n) :
    (BufferPool.new st n faults).WF := by
  refine ⟨⟨by simp [ClockManager.new, BufferPool.new], ?_⟩, ?_, ?_, ?_⟩
  · simp only [BufferPool.new, ClockManager.new, List.length_replicate]
    exact hn
  · simp [BufferPool.new, ClockManager.new]
  · simp only [BufferPool.new, ClockManager.new, List.length_replicate]
    exact hn
  · intro i k
    constructor
    · intro h
      rw [show (BufferPool.new st n faults).manager.entries = List.replicate n none from rfl,
        getD_replicate_none] at h
      cases h
    · intro h
      cases h

theorem atbp_spec (bp : BufferPool) (pid : Nat) (data : Page) (hwf : bp.WF) :
    (bp.add_to_buffer_pool pid data).1.WF ∧
    (bp.add_to_buffer_pool pid data).2 < bp.frames.length ∧
    (bp.add_to_buffer_pool pid data).1.frames =
      bp.frames.set (bp.add_to_buffer_pool pid data).2 data ∧
    (bp.add_to_buffer_pool pid data).1.storage = bp.storage ∧
    (bp.add_to_buffer_pool pid data).1.faults = bp.faults ∧
    lookupA (bp.add_to_buffer_pool pid data).1.page_table pid =
      some (bp.add_to_buffer_pool pid data).2 ∧
    (∀ q i, q ≠ pid →
      (lookupA (bp.add_to_buffer_pool pid data).1.page_table q = some i ↔
        lookupA bp.page_table q = some i ∧ i ≠ (bp.add_to_buffer_pool pid data).2)) := by
  obtain ⟨⟨hel, hidx⟩, hfl, hpos, hres⟩ := hwf
  cases hl : lookupA bp.page_table pid with
  | some i =>
    have hei : bp.manager.entries.getD i none = some pid := (hres i pid).mpr hl
    have hilt : i < bp.manager.entries.length := lt_of_getD_eq_some hei
    have hresult : bp.add_to_buffer_pool pid data =
        ({ bp with manager := bp.manager.update i, frames := bp.frames.set i data }, i) := by
      unfold BufferPool.add_to_buffer_pool
      rw [hl]
    rw [hresult]
    refine ⟨⟨⟨?_, ?_⟩, ?_, ?_, ?_⟩, by omega, rfl, rfl, rfl, hl, ?_⟩
    · show (bp.manager.update i).entries.length = (bp.manager.update i).clock.length
      rw [update_entries_eq, update_clock_len]
      exact hel
    · show (bp.manager.update i).idx < (bp.manager.update i).clock.length
      rw [update_idx_eq, update_clock_len]
      exact hidx
    · show (bp.frames.set i data).length = (bp.manager.update i).clock.length
      rw [List.length_set, update_clock_len]
      exact hfl
    · show 0 < (bp.manager.update i).clock.length
      rw [update_clock_len]
      exact hpos
    · intro i0 k
      show (bp.manager.update i).entries.getD i0 none = some k ↔ _
      rw [update_entries_eq]
      exact hres i0 k
    · intro q i0 hq
      constructor
      · intro h
        refine ⟨h, ?_⟩
        intro hii
        subst hii
        have hq2 : bp.manager.entries.getD i0 none = some q := (hres i0 q).mpr h
        rw [hei] at hq2
        injection hq2 with h3
        exact hq h3.symm
      · exact fun h => h.1
  | none =>
    have hsel := sweep_sel_lt bp.manager pid hidx
    have hentN := sweep_entries_eq bp.manager pid
    have hevq := sweep_evicted_eq bp.manager pid
    have hclkN := sweep_clock_len bp.manager pid
    have hidxN := sweep_idx_eq bp.manager pid
    have hentlenN := sweep_entries_len bp.manager pid
    have hselE : (bp.manager.sweep pid).2.1 < bp.manager.entries.length := by omega
    have hmgr : (bp.add_to_buffer_pool pid data).1.manager = (bp.manager.sweep pid).1 := by
      unfold BufferPool.add_to_buffer_pool
      rw [hl]
    have hsnd : (bp.add_to_buffer_pool pid data).2 = (bp.manager.sweep pid).2.1 := by
      unfold BufferPool.add_to_buffer_pool
      rw [hl]
    have hfr : (bp.add_to_buffer_pool pid data).1.frames =
        bp.frames.set (bp.manager.sweep pid).2.1 data := by
      unfold BufferPool.add_to_buffer_pool
      rw [hl]
    have hst : (bp.add_to_buffer_pool pid data).1.storage = bp.storage := by
      unfold BufferPool.add_to_buffer_pool
      rw [hl]
    have hfa : (bp.add_to_buffer_pool pid data).1.faults = bp.faults := by
      unfold BufferPool.add_to_buffer_pool
      rw [hl]
    have hpt : (bp.add_to_buffer_pool pid data).1.page_table =
        (pid, (bp.manager.sweep pid).2.1) ::
          (match (bp.manager.sweep pid).2.2 with
           | some old => removeA bp.page_table old
           | none => bp.page_table) := by
      unfold BufferPool.add_to_buffer_pool
      rw [hl]
    have hptR : ∀ k0 i0,
        lookupA (match (bp.manager.sweep pid).2.2 with
                 | some old => removeA bp.page_table old
                 | none => bp.page_table) k0 = some i0 ↔
        (lookupA bp.page_table k0 = some i0 ∧
          bp.manager.entries.getD (bp.manager.sweep pid).2.1 none ≠ some k0) := by
      intro k0 i0
      cases hevc : (bp.manager.sweep pid).2.2 with
      | some old =>
        have hgd : bp.manager.entries.getD (bp.manager.sweep pid).2.1 none = some old := by
          rw [← hevq, hevc]
        rw [lookupA_removeA, hgd]
        by_cases hko : k0 = old
        · rw [if_pos hko]
          constructor
          · intro h
            cases h
          · intro h
            exact absurd (by rw [hko]) h.2
        · rw [if_neg hko]
          constructor
          · intro h
            refine ⟨h, ?_⟩
            intro hcon
            injection hcon with h3
            exact hko h3.symm
          · exact fun h => h.1
      | none =>
        have hgd : bp.manager.entries.getD (bp.manager.sweep pid).2.1 none = none := by
          rw [← hevq, hevc]
        rw [hgd]
        constructor
        · intro h
          exact ⟨h, fun hcon => by cases hcon⟩
        · exact fun h => h.1
    refine ⟨⟨⟨?_, ?_⟩, ?_, ?_, ?_⟩, ?_, ?_, hst, hfa, ?_, ?_⟩
    · rw [hmgr]
      omega
    · rw [hmgr]
      omega
    · rw [hfr, hmgr, List.length_set]
      omega
    · rw [hmgr]
      omega
    · intro i0 kk
      rw [hmgr, hentN, hpt, lookupA_cons]
      by_cases hk : kk = pid
      · rw [if_pos hk]
        by_cases hi0 : i0 = (bp.manager.sweep pid).2.1
        · subst hi0
          rw [getD_set_self _ _ _ _ hselE]
          constructor
          · intro _
            rfl
          · intro _
            rw [hk]
        · rw [getD_set_ne _ _ _ _ _ (fun hcon => hi0 hcon.symm)]
          constructor
          · intro h
            rw [hk] at h
            have h2 := (hres i0 pid).mp h
            rw [hl] at h2
            cases h2
          · intro h
            injection h with h3
            exact absurd h3.symm hi0
      · rw [if_neg hk, hptR]
        by_cases hi0 : i0 = (bp.manager.sweep pid).2.1
        · subst hi0
          rw [getD_set_self _ _ _ _ hselE]
          constructor
          · intro h
            injection h with h3
            exact absurd h3.symm hk
          · intro h
            exact absurd ((hres _ kk).mpr h.1) h.2
        · rw [getD_set_ne _ _ _ _ _ (fun hcon => hi0 hcon.symm)]
          rw [hres i0 kk]
          constructor
          · intro h
            refine ⟨h, ?_⟩
            intro hcon
            have h4 := (hres _ kk).mp hcon
            rw [h] at h4
            injection h4 with h3
            exact hi0 h3
          · exact fun h => h.1
    · rw [hsnd]
      omega
    · rw [hfr, hsnd]
    · rw [hpt, hsnd, lookupA_cons, if_pos rfl]
    · intro q i0 hq
      rw [hpt, hsnd, lookupA_cons, if_neg hq, hptR]
      constructor
      · intro h
        refine ⟨h.1, ?_⟩
        intro hcon
        subst hcon
        exact h.2 ((hres _ q).mpr h.1)
      · intro h
        refine ⟨h.1, ?_⟩
        intro hcon
        have h4 : lookupA bp.page_table q = some (bp.manager.sweep pid).2.1 :=
          (hres _ q).mp hcon
        rw [h.1] at h4
        injection h4 with h5
        exact h.2 h5

theorem atbp_faults (bp : BufferPool) (pid : Nat) (data : Page) :
    (bp.add_to_buffer_pool pid data).1.faults = bp.faults := by
  unfold BufferPool.add_to_buffer_pool
  dsimp only
  split <;> rfl

theorem atbp_storage (bp : BufferPool) (pid : Nat) (data : Page) :
    (bp.add_to_buffer_pool pid data).1.storage = bp.storage := by
  unfold BufferPool.add_to_buffer_pool
  dsimp only
  split <;> rfl

theorem wf_update_manager (bp : BufferPool) (i : Nat) (hwf : bp.WF) :
    ({ bp with manager := bp.manager.update i } : BufferPool).WF := by
  obtain ⟨⟨hel, hidx⟩, hfl, hpos, hres⟩ := hwf
  refine ⟨⟨?_, ?_⟩, ?_, ?_, ?_⟩
  · show (bp.manager.update i).entries.length = (bp.manager.update i).clock.length
    rw [update_entries_eq, update_clock_len]
    exact hel
  · show (bp.manager.update i).idx < (bp.manager.update i).clock.length
    rw [update_idx_eq, update_clock_len]
    exact hidx
  · show bp.frames.length = (bp.manager.update i).clock.length
    rw [update_clock_len]
    exact hfl
  · show 0 < (bp.manager.update i).clock.length
    rw [update_clock_len]
    exact hpos
  · intro i0 k
    show (bp.manager.update i).entries.getD i0 none = some k ↔ _
    rw [update_entries_eq]
    exact hres i0 k

theorem wf_faults (bp : BufferPool) (fs : List Bool) (hwf : bp.WF) :
    ({ bp with faults := fs } : BufferPool).WF := hwf

theorem wf_storage (bp : BufferPool) (st : PagedFile) (hwf : bp.WF) :
    ({ bp with storage := st } : BufferPool).WF := hwf

theorem readMiss_wf (bp : BufferPool) (pid : Nat) (hwf : bp.WF) : (bp.readMiss pid).1.WF := by
  unfold BufferPool.readMiss
  dsimp only
  split
  · exact hwf
  · split
    · exact hwf
    · refine (atbp_spec _ _ _ ?_).1
      exact hwf

theorem read_page_wf (bp : BufferPool) (pid : Nat) (hwf : bp.WF) : (bp.read_page pid).1.WF := by
  unfold BufferPool.read_page
  split
  · split
    · exact wf_update_manager bp _ hwf
    · exact readMiss_wf bp pid hwf
  · exact readMiss_wf bp pid hwf

theorem append_page_wf (bp : BufferPool) (d : Page) (hwf : bp.WF) : (bp.append_page d).1.WF := by
  unfold BufferPool.append_page
  dsimp only
  split
  · exact hwf
  · refine (atbp_spec _ _ _ ?_).1
    exact hwf

theorem update_page_wf (bp : BufferPool) (pid : Nat) (d : Page) (hwf : bp.WF) :
    (bp.update_page pid d).1.WF := by
  unfold BufferPool.update_page
  dsimp only
  split
  · exact (atbp_spec bp pid d hwf).1
  · exact (atbp_spec bp pid d hwf).1

theorem runOp_wf (bp : BufferPool) (op : PoolOp) (hwf : bp.WF) : (bp.runOp op).WF := by
  cases op with
  | readP pid => exact read_page_wf bp pid hwf
  | appendP d => exact append_page_wf bp d hwf
  | updateP pid d => exact update_page_wf bp pid d hwf

theorem runOps_wf (bp : BufferPool) (ops : List PoolOp) (hwf : bp.WF) :
    (bp.runOps ops).WF := by
  induction ops generalizing bp with
  | nil => exact hwf
  | cons op ops ih => exact ih _ (runOp_wf bp op hwf)

theorem readMiss_faults (bp : BufferPool) (pid : Nat) (h : bp.faults = []) :
    (bp.readMiss pid).1.faults = [] := by
  have hp : (popFault bp.faults).2 = [] := by rw [h]; rfl
  unfold BufferPool.readMiss
  dsimp only
  split
  · exact hp
  · split
    · exact hp
    · rw [atbp_faults]
      exact hp

theorem read_page_faults (bp : BufferPool) (pid : Nat) (h : bp.faults = []) :
    (bp.read_page pid).1.faults = [] := by
  unfold BufferPool.read_page
  split
  · split
    · exact h
    · exact readMiss_faults bp pid h
  · exact readMiss_faults bp pid h

theorem append_page_faults (bp : BufferPool) (d : Page) (h : bp.faults = []) :
    (bp.append_page d).1.faults = [] := by
  have hp : (popFault bp.faults).2 = [] := by rw [h]; rfl
  unfold BufferPool.append_page
  dsimp only
  split
  · exact hp
  · rw [atbp_faults]
    exact hp

theorem update_page_faults (bp : BufferPool) (pid : Nat) (d : Page)
    (h : bp.faults = []) : (bp.update_page pid d).1.faults = [] := by
  have hp0 : (bp.add_to_buffer_pool pid d).1.faults = [] := by
    rw [atbp_faults]
    exact h
  have hp : (popFault (bp.add_to_buffer_pool pid d).1.faults).2 = [] := by rw [hp0]; rfl
  unfold BufferPool.update_page
  dsimp only
  split
  · exact hp
  · exact hp

theorem runOp_faults (bp : BufferPool) (op : PoolOp) (h : bp.faults = []) :
    (bp.runOp op).faults = [] := by
  cases op with
  | readP pid => exact read_page_faults bp pid h
  | appendP d => exact append_page_faults bp d h
  | updateP pid d => exact update_page_faults bp pid d h

theorem get?_lt {l : List Page} {p : Nat} {d : Page} (h : l.get? p = some d) : p < l.length := by
  by_contra hge
  rw [List.get?_eq_none.mpr (by omega)] at h
  cases h

theorem atbp_coherent (bp : BufferPool) (pid : Nat) (data : Page) (p : Nat) (d : Page)
    (hwf : bp.WF) (hq : pid ≠ p ∨ data = d)
    (hco2 : ∀ i, lookupA bp.page_table p = some i → bp.frames.getD i [] = d) :
    ∀ i, lookupA (bp.add_to_buffer_pool pid data).1.page_table p = some i →
      (bp.add_to_buffer_pool pid data).1.frames.getD i [] = d := by
  obtain ⟨hwfN, hlt, hfr, hst, hfa, hlk, hiff⟩ := atbp_spec bp pid data hwf
  intro i hi
  rcases hq with hq | hq
  · have hmm := (hiff p i (fun hcon => hq hcon.symm)).mp hi
    rw [hfr, getD_set_ne _ _ _ _ _ (fun hcon => hmm.2 hcon.symm)]
    exact hco2 i hmm.1
  · by_cases hpp : p = pid
    · rw [hpp] at hi
      rw [hlk] at hi
      injection hi with h3
      rw [hfr, ← h3, getD_set_self _ _ _ _ hlt]
      exact hq
    · have hmm := (hiff p i hpp).mp hi
      rw [hfr, getD_set_ne _ _ _ _ _ (fun hcon => hmm.2 hcon.symm)]
      exact hco2 i hmm.1

theorem get?_set_ne {α : Type} (l : List α) (i j : Nat) (a : α) (h : i ≠ j) :
    (l.set i a).get? j = l.get? j := by
  rw [List.get?_eq_getElem?, List.get?_eq_getElem?, List.getElem?_set_ne h]

theorem readMiss_coherent (bp : BufferPool) (q p : Nat) (d : Page)
    (hwf : bp.WF) (hco : Coherent bp p d) : Coherent (bp.readMiss q).1 p d := by
  obtain ⟨hc1, hc2⟩ := hco
  unfold BufferPool.readMiss
  dsimp only
  split
  · exact ⟨hc1, hc2⟩
  · split
    · exact ⟨hc1, hc2⟩
    · rename_i data hread
      constructor
      · rw [atbp_storage]
        exact hc1
      · refine atbp_coherent _ q data p d ?_ ?_ ?_
        · exact hwf
        · by_cases hqp : q = p
          · right
            rw [hqp] at hread
            unfold PagedFile.read_page at hread
            rw [hc1] at hread
            have hread2 : (Except.ok d : Except Unit Page) = Except.ok data := hread
            injection hread2 with h3
            exact h3.symm
          · left
            exact hqp
        · exact hc2

theorem read_page_coherent (bp : BufferPool) (q p : Nat) (d : Page)
    (hwf : bp.WF) (hco : Coherent bp p d) : Coherent (bp.read_page q).1 p d := by
  unfold BufferPool.read_page
  split
  · split
    · exact ⟨hco.1, hco.2⟩
    · exact readMiss_coherent bp q p d hwf hco
  · exact readMiss_coherent bp q p d hwf hco

theorem append_page_coherent (bp : BufferPool) (d0 : Page) (p : Nat) (d : Page)
    (hwf : bp.WF) (hco : Coherent bp p d) : Coherent (bp.append_page d0).1 p d := by
  obtain ⟨hc1, hc2⟩ := hco
  have hplt : p < bp.storage.pages.length := get?_lt hc1
  unfold BufferPool.append_page
  dsimp only
  split
  · exact ⟨hc1, hc2⟩
  · constructor
    · rw [atbp_storage]
      show ((bp.storage.append_page d0).1).pages.get? p = some d
      unfold PagedFile.append_page
      dsimp only
      rw [List.get?_append hplt]
      exact hc1
    · refine atbp_coherent _ _ d0 p d ?_ ?_ ?_
      · exact hwf
      · left
        show (bp.storage.append_page d0).2 ≠ p
        unfold PagedFile.append_page
        dsimp only
        omega
      · exact hc2

theorem update_page_coherent (bp : BufferPool) (q : Nat) (d0 : Page) (p : Nat) (d : Page)
    (hwf : bp.WF) (hco : Coherent bp p d) (hqp : q ≠ p) :
    Coherent (bp.update_page q d0).1 p d := by
  obtain ⟨hc1, hc2⟩ := hco
  have hplt : p < bp.storage.pages.length := get?_lt hc1
  have hco2m : ∀ i, lookupA (bp.add_to_buffer_pool q d0).1.page_table p = some i →
      (bp.add_to_buffer_pool q d0).1.frames.getD i [] = d :=
    atbp_coherent bp q d0 p d hwf (Or.inl hqp) hc2
  have hst1 : (bp.add_to_buffer_pool q d0).1.storage.pages.get? p = some d := by
    rw [atbp_storage]
    exact hc1
  have hplt1 : p < (bp.add_to_buffer_pool q d0).1.storage.pages.length := get?_lt hst1
  unfold BufferPool.update_page
  dsimp only
  split
  · exact ⟨hst1, hco2m⟩
  · constructor
    · show ((bp.add_to_buffer_pool q d0).1.storage.write_page q d0).pages.get? p = some d
      unfold PagedFile.write_page
      split
      · show ((bp.add_to_buffer_pool q d0).1.storage.pages.set q d0).get? p = some d
        rw [get?_set_ne _ _ _ _ hqp]
        exact hst1
      · show ((bp.add_to_buffer_pool q d0).1.storage.pages ++
          List.replicate (q - (bp.add_to_buffer_pool q d0).1.storage.pages.length)
            (List.replicate PAGESIZE 0) ++ [d0]).get? p = some d
        rw [List.get?_append (by rw [List.length_append]; omega), List.get?_append hplt1]
        exact hst1
    · exact hco2m

theorem runOp_coherent (bp : BufferPool) (op : PoolOp) (p : Nat) (d : Page)
    (hwf : bp.WF) (hco : Coherent bp p d) (hnu : ∀ d0, op ≠ .updateP p d0) :
    Coherent (bp.runOp op) p d := by
  cases op with
  | readP q => exact read_page_coherent bp q p d hwf hco
  | appendP d0 => exact append_page_coherent bp d0 p d hwf hco
  | updateP q d0 =>
    have hq : q ≠ p := by
      intro hcon
      exact hnu d0 (by rw [hcon])
    exact update_page_coherent bp q d0 p d hwf hco hq

theorem runOps_coherent (bp : BufferPool) (ops : List PoolOp) (p : Nat) (d : Page)
    (hwf : bp.WF) (hco : Coherent bp p d) (hnu : noUpdateTo p ops) :
    Coherent (bp.runOps ops) p d := by
  induction ops generalizing bp with
  | nil => exact hco
  | cons op ops ih =>
    have hnu1 : ∀ d0, op ≠ .updateP p d0 := by
      intro d0 hcon
      exact hnu d0 (by rw [hcon]; exact List.mem_cons_self _ _)
    have hnur : noUpdateTo p ops := fun d0 hmem => hnu d0 (List.mem_cons_of_mem _ hmem)
    exact ih _ (runOp_wf bp op hwf) (runOp_coherent bp op p d hwf hco hnu1) hnur

theorem runOps_faults (bp : BufferPool) (ops : List PoolOp) (h : bp.faults = []) :
    (bp.runOps ops).faults = [] := by
  induction ops generalizing bp with
  | nil => exact h
  | cons op ops ih => exact ih _ (runOp_faults bp op h)

theorem atbp_self_coherent (bp : BufferPool) (pid : Nat) (data : Page) (hwf : bp.WF) :
    ∀ i, lookupA (bp.add_to_buffer_pool pid data).1.page_table pid = some i →
      (bp.add_to_buffer_pool pid data).1.frames.getD i [] = data := by
  obtain ⟨hwfN, hlt, hfr, hst, hfa, hlk, hiff⟩ := atbp_spec bp pid data hwf
  intro i hi
  rw [hlk] at hi
  injection hi with h3
  rw [hfr, ← h3]
  exact getD_set_self _ _ _ _ hlt

theorem read_page_result (bp : BufferPool) (p : Nat) (d : Page)
    (hwf : bp.WF) (hfa : bp.faults = []) (hco : Coherent bp p d) :
    (bp.read_page p).2 = .ok d := by
  obtain ⟨⟨hel, hidx⟩, hfl, hpos, hres⟩ := hwf
  obtain ⟨hc1, hc2⟩ := hco
  have hok : bp.storage.read_page p = .ok d := by
    unfold PagedFile.read_page
    rw [hc1]
  unfold BufferPool.read_page
  split
  · rename_i i hl
    have hilt : i < bp.manager.entries.length := lt_of_getD_eq_some ((hres i p).mpr hl)
    rw [if_pos (show i < bp.frames.length by omega)]
    dsimp only
    rw [hc2 i hl]
  · rename_i hl
    unfold BufferPool.readMiss
    dsimp only
    rw [hfa]
    rw [if_neg (by decide)]
    split
    · rename_i e hread
      have hread2 : bp.storage.read_page p = .error e := hread
      rw [hok] at hread2
      injection hread2
    · rename_i data hread
      have hread2 : bp.storage.read_page p = .ok data := hread
      rw [hok] at hread2
      injection hread2 with h3
      dsimp only
      rw [← h3]

theorem append_page_ok_new (bp : BufferPool) (d : Page) (hwf : bp.WF)
    (hfa : bp.faults = []) :
    (bp.append_page d).2 = .ok bp.storage.pages.length ∧
    Coherent (bp.append_page d).1 bp.storage.pages.length d := by
  unfold BufferPool.append_page
  dsimp only
  rw [hfa]
  rw [if_neg (by decide)]
  refine ⟨rfl, ?_, ?_⟩
  · rw [atbp_storage]
    show ((bp.storage.append_page d).1).pages.get? bp.storage.pages.length = some d
    unfold PagedFile.append_page
    dsimp only
    exact List.get?_concat_length _ _
  · refine atbp_self_coherent _ _ d ?_
    exact hwf

/-- **C1**. Round-trip through the buffer pool: over an initially empty (and
fault-free) paged file, if `append_page d` (with `d` a `PAGESIZE`-byte
payload) returns page id `p`, then after any further operations that contain
no `update_page` of `p` — evictions by intervening reads and appends
included — `read_page p` succeeds and returns `d`. -/
theorem c1_bufferpool_roundtrip (n : Nat) (hn : 0 < n) (pre : List PoolOp) (d : Page)
    ( _hd : d.length = PAGESIZE) (s2 : BufferPool) (p : Nat)
    (happ : (BufferPool.runOps (BufferPool.new ⟨[]⟩ n []) pre).append_page d = (s2, .ok p))
    (post : List PoolOp) (hnu : noUpdateTo p post) :
    ((BufferPool.runOps s2 post).read_page p).2 = .ok d := by
  have hwf1 : (BufferPool.runOps (BufferPool.new ⟨[]⟩ n []) pre).WF :=
    runOps_wf _ pre (new_wf ⟨[]⟩ n [] hn)
  have hfa1 : (BufferPool.runOps (BufferPool.new ⟨[]⟩ n []) pre).faults = [] :=
    runOps_faults _ pre rfl
  have hnew := append_page_ok_new (BufferPool.runOps (BufferPool.new ⟨[]⟩ n []) pre) d hwf1 hfa1
  have hp : (BufferPool.runOps (BufferPool.new ⟨[]⟩ n []) pre).storage.pages.length = p := by
    have h2 : ((BufferPool.runOps (BufferPool.new ⟨[]⟩ n []) pre).append_page d).2 = .ok p := by
      rw [happ]
    rw [hnew.1] at h2
    injection h2
  have hs2 : ((BufferPool.runOps (BufferPool.new ⟨[]⟩ n []) pre).append_page d).1 = s2 := by
    rw [happ]
  have hwf2 : s2.WF := by
    rw [← hs2]
    exact append_page_wf _ d hwf1
  have hfa2 : s2.faults = [] := by
    rw [← hs2]
    exact append_page_faults _ d hfa1
  have hco2 : Coherent s2 p d := by
    rw [← hs2, ← hp]
    exact hnew.2
  exact read_page_result _ p d (runOps_wf s2 post hwf2) (runOps_faults s2 post hfa2)
    (runOps_coherent s2 post p d hwf2 hco2 hnu)

theorem c1_witness :
    (0 < 1 ∧ (List.replicate PAGESIZE 0 : Page).length = PAGESIZE ∧
      (BufferPool.runOps (BufferPool.new ⟨[]⟩ 1 []) []).append_page
          (List.replicate PAGESIZE 0) =
        (((BufferPool.new ⟨[]⟩ 1 []).append_page (List.replicate PAGESIZE 0)).1, .ok 0) ∧
      noUpdateTo 0 []) ∧
    ((BufferPool.runOps ((BufferPool.new ⟨[]⟩ 1 []).append_page
        (List.replicate PAGESIZE 0)).1 []).read_page 0).2 =
      .ok (List.replicate PAGESIZE 0) := by
  refine ⟨⟨Nat.one_pos, by simp, rfl, fun d0 => List.not_mem_nil _⟩, ?_⟩
  exact c1_bufferpool_roundtrip 1 Nat.one_pos [] (List.replicate PAGESIZE 0) (by simp)
    (((BufferPool.new ⟨[]⟩ 1 []).append_page (List.replicate PAGESIZE 0)).1) 0 rfl []
    (fun d0 => List.not_mem_nil _)

/-- **C3**. Clock residency invariant: starting from any freshly constructed
buffer pool (any backing file, any positive frame count, any fault
schedule), after every sequence of completed `read_page` / `append_page` /
`update_page` operations — successful or erroring — slot `i` of the clock
holds key `k` exactly when the page table maps `k` to frame `i`. -/
theorem c3_clock_residency (st : PagedFile) (n : Nat) (faults : List Bool)
    (ops : List PoolOp) (hn : 0 < n) :
    Residency (BufferPool.runOps (BufferPool.new st n faults) ops) :=
  (runOps_wf _ ops (new_wf st n faults hn)).2.2.2

theorem c3_witness :
    0 < 1 ∧ Residency (BufferPool.runOps (BufferPool.new ⟨[]⟩ 1 []) []) :=
  ⟨Nat.one_pos, c3_clock_residency ⟨[]⟩ 1 [] [] Nat.one_pos⟩

/-- **C4 counterexample**. `update_page` on a pool whose next device write
fails still modifies the page table: starting from a fresh one-frame pool
over an empty file with the next I/O faulted, `update_page 0 d` returns an
error, yet the page table is no longer the original (empty) one — refuting
"if the write underlying `update_page(p, d)` fails then the pool's page
table, clock, and frames are unchanged". -/
theorem c4_counterexample :
    ((BufferPool.new ⟨[]⟩ 1 [true]).update_page 0 (List.replicate PAGESIZE 1)).2 =
      .error () ∧
    ((BufferPool.new ⟨[]⟩ 1 [true]).update_page 0 (List.replicate PAGESIZE 1)).1.page_table ≠
      (BufferPool.new ⟨[]⟩ 1 [true]).page_table := by
  constructor
  · rfl
  · decide

/-- **C4 amended**. When the underlying paged-file I/O fails, `append_page`
and the miss path of `read_page` leave the pool's page table, clock, frames
and file untouched (only the fault is consumed), but `update_page` has
already installed the new data: its resulting page table, clock and frames
are exactly those produced by `add_to_buffer_pool`, with the file
unchanged. -/
theorem c4_error_handling_amended (bp : BufferPool) (pid : Nat) (d data : Page)
    (hf : (popFault bp.faults).1 = true) : C4AmendedAt bp pid d data := by
  refine ⟨?_, ?_, ?_⟩
  · unfold BufferPool.append_page
    dsimp only
    rw [if_pos hf]
    exact ⟨rfl, rfl, rfl, rfl, rfl⟩
  · intro hl
    unfold BufferPool.read_page
    rw [hl]
    unfold BufferPool.readMiss
    dsimp only
    rw [if_pos hf]
    exact ⟨rfl, rfl, rfl, rfl, rfl⟩
  · unfold BufferPool.update_page
    dsimp only
    have hf2 : (popFault (bp.add_to_buffer_pool pid d).1.faults).1 = true := by
      rw [atbp_faults]
      exact hf
    rw [if_pos hf2]
    refine ⟨rfl, rfl, rfl, rfl, ?_⟩
    show (bp.add_to_buffer_pool pid d).1.storage = bp.storage
    exact atbp_storage bp pid d

theorem c4_witness :
    (popFault (BufferPool.new ⟨[]⟩ 1 [true]).faults).1 = true ∧
    C4AmendedAt (BufferPool.new ⟨[]⟩ 1 [true]) 0
      (List.replicate PAGESIZE 1) (List.replicate PAGESIZE 2) :=
  ⟨by decide, c4_error_handling_amended (BufferPool.new ⟨[]⟩ 1 [true]) 0
    (List.replicate PAGESIZE 1) (List.replicate PAGESIZE 2) (by decide)⟩

end Potpot
